import Mathlib

/-!
# prom_analysis: ranking engine and retry wrapper

A shallow embedding of `analysiser.go` and `main.go`.

Modelling conventions.
* A finite `float64` is a rational (`Rat`), and comparisons of floats are
  comparisons of rationals.  The arithmetic of the program (`max/min`,
  `(od - spot)/od`) is the IEEE 754 arithmetic of `float64`: the exact result
  rounded to the nearest `float64`, ties to even (`round64`, `fsub`, `fdiv`).
  A result that overflows is `+Inf` or `-Inf`, for which `2^1024` and `-2^1024`
  stand: they are above and below every finite `float64`.  The inputs (sample
  values, catalog prices) are finite; NaN is outside the model.
* `sort.Slice` (Go standard library) is taken through its documented contract
  (`SliceSorter`): the result is a permutation of the input and, for a strict
  weak ordering `less`, no element is `less` than one before it; stability is
  not part of the contract.  Every ranking takes the sorter as an argument.
  `insertionSorter` is an executable instance used for evaluation; `goSorter`
  is the algorithm of the Go standard library (`pdqsort_func`), used where the
  behaviour of the sort on equal keys matters.
* A Go map is a key/value list with pairwise distinct keys (`GoMap`); the order
  in which `range` visits a map is not fixed by the language and is an
  argument too (`MapRange`), one per `range` statement; `storedOrder`,
  `insertionOrder` and `rotatedOrder` are executable instances.
* The Prometheus query (`v1api.Query`) is an external collaborator: its outcome
  (`QueryResult`) is an input of each ranking operation.  Warnings are only
  printed and are left out.
* A Go closure `func() error` with side effects is a state transformer
  `σ → Option ε × σ` (`none` is the `nil` error); `retry` returns, with the
  error, the trace of its invocations and sleeps.
-/

namespace PromAnalysis

/-! ## Data model -/

/-- Label set of a sample (`model.Metric`): label name to label value. -/
abbrev Metric := List (String × String)

/-- Indexing `model.Metric` as Go does: the zero value `""` when the label is absent. -/
def Metric.get (m : Metric) (name : String) : String :=
  (m.lookup name).getD ""

/-- One element of a `model.Vector` (`model.Sample`); the timestamp is never read. -/
structure Sample where
  Metric : Metric
  Value : Rat
  deriving DecidableEq, Repr

/-- Outcome of `v1api.Query` followed by the type assertion `result.(model.Vector)`. -/
inductive QueryResult where
  /-- The query returned `err != nil`. -/
  | failed (cause : String)
  /-- The query returned a value that is not a `model.Vector`. -/
  | notVector
  /-- The query returned a vector of samples. -/
  | vector (v : List Sample)
  deriving DecidableEq, Repr

/-- The errors built with `fmt.Errorf` in `analysiser.go`. -/
inductive Error where
  | queryFailed (cause : String)
  | resultNotVector
  | noDataFound
  | queryMaxFailed (cause : String)
  | queryMinFailed (cause : String)
  | maxNotVector
  | minNotVector
  | noValidInstance
  | notExist (instanceType : String)
  deriving DecidableEq, Repr

/-- Text of each error, as formatted by the source. -/
def Error.message : Error → String
  | .queryFailed cause => "query failed: " ++ cause
  | .resultNotVector => "result is not a vector"
  | .noDataFound => "no data found"
  | .queryMaxFailed cause => "query max failed: " ++ cause
  | .queryMinFailed cause => "query min failed: " ++ cause
  | .maxNotVector => "max query result is not a vector"
  | .minNotVector => "min query result is not a vector"
  | .noValidInstance => "no valid instance found"
  | .notExist instanceType => "instance type " ++ instanceType ++ " not exist"

/-! ## `float64` arithmetic -/

/-- The power `2^e` for an integer exponent. -/
def pow2 (e : Int) : Rat :=
  if 0 ≤ e then ((2 ^ e.toNat : Nat) : Rat) else 1 / ((2 ^ (-e).toNat : Nat) : Rat)

/-- The number of binary digits of `n`; `fuel` bounds the number of halvings. -/
def bitLen : Nat → Nat → Nat
  | 0, _ => 0
  | fuel + 1, n => if n = 0 then 0 else bitLen fuel (n / 2) + 1

/-- The exponent `e` with `2^e ≤ a < 2^(e+1)`, for `a > 0`. -/
def ilog2 (a : Rat) : Int :=
  let e0 : Int := (bitLen a.num.natAbs a.num.natAbs : Int) - (bitLen a.den a.den : Int)
  if pow2 e0 ≤ a then e0 else e0 - 1

/-- The integer nearest to `q`, the even one when `q` is halfway between two. -/
def roundHalfEven (q : Rat) : Int :=
  let f := q.floor
  let r := q - f
  if r < 1 / 2 then f else if 1 / 2 < r then f + 1 else if f % 2 = 0 then f else f + 1

/-- The value `2^1024`, which stands for `+Inf` (and its opposite for `-Inf`). -/
def float64Inf : Rat := pow2 1024

/-- Rounding of an exact result to `float64` (round to nearest, ties to even): a
multiple of `2^(e-52)` with `e` the exponent of the value, at least `-1022` (below it
the values are subnormal), and an infinity when the rounded magnitude reaches `2^1024`. -/
def round64 (q : Rat) : Rat :=
  if q = 0 then 0
  else
    let a := |q|
    let e := max (ilog2 a) (-1022)
    let ulp := pow2 (e - 52)
    let r := (roundHalfEven (a / ulp) : Rat) * ulp
    let r := if float64Inf ≤ r then float64Inf else r
    if q < 0 then -r else r

/-- The `float64` subtraction `a - b` of two finite values. -/
def fsub (a b : Rat) : Rat := round64 (a - b)

/-- The `float64` division `x / y` by a finite `y > 0`; an infinite `x` stays as it is. -/
def fdiv (x y : Rat) : Rat := if float64Inf ≤ |x| then x else round64 (x / y)

/-! ## `sort.Slice` -/

/-- The requirement `sort.Slice` puts on `less`: a strict weak ordering. -/
structure StrictWeak {α : Type} (less : α → α → Bool) : Prop where
  irrefl : ∀ a, less a a = false
  trans : ∀ a b c, less a b = true → less b c = true → less a c = true
  incomp : ∀ a b c, less a b = false → less b a = false → less b c = false →
    less c b = false → less a c = false ∧ less c a = false

/-- Contract of `sort.Slice`: it permutes the slice, and for a strict weak ordering
no element of the result is `less` than an element before it. -/
structure SliceSorter where
  run : {α : Type} → (α → α → Bool) → List α → List α
  perm : ∀ {α : Type} (less : α → α → Bool) (xs : List α), (run less xs).Perm xs
  sorted : ∀ {α : Type} (less : α → α → Bool), StrictWeak less →
    ∀ xs : List α, (run less xs).Pairwise (fun a b => less b a = false)

/-- Insertion sort by `less`: the algorithm `sort.Slice` runs on slices of at most
12 elements. -/
def insertionSort {α : Type} (less : α → α → Bool) (xs : List α) : List α :=
  List.insertionSort (fun a b => less b a = false) xs

/-- The executable instance of `SliceSorter`: insertion sort. -/
def insertionSorter : SliceSorter where
  run := fun less xs => insertionSort less xs
  perm := fun less xs => List.perm_insertionSort (fun a b => less b a = false) xs
  sorted := by
    intro α less h xs
    have asym : ∀ a b, less a b = true → less b a = false := by
      intro a b hab
      cases hba : less b a with
      | false => rfl
      | true => have := h.trans a b a hab hba; rw [h.irrefl a] at this; cases this
    haveI : IsTotal α (fun a b => less b a = false) := ⟨fun a b => by
      cases hba : less b a with
      | false => exact Or.inl rfl
      | true => exact Or.inr (asym b a hba)⟩
    haveI : IsTrans α (fun a b => less b a = false) := ⟨fun a b c hab hbc => by
      show less c a = false
      cases hca : less c a with
      | false => rfl
      | true =>
        exfalso
        have hab' : less a b = false := by
          cases hx : less a b with
          | false => rfl
          | true => have := h.trans c a b hca hx; rw [hbc] at this; cases this
        have hbc' : less b c = false := by
          cases hx : less b c with
          | false => rfl
          | true => have := h.trans b c a hx hca; rw [hab] at this; cases this
        have := (h.incomp a b c hab' hab hbc' hbc).2
        rw [hca] at this; cases this⟩
    exact List.sorted_insertionSort (fun a b => less b a = false) xs

/-! ## Retry wrapper (`main.go`) -/

/-- What `retry` does, in order: invocations of `f` with their result, and sleeps. -/
inductive RetryEvent (ε : Type) where
  | invoke (result : Option ε)
  | sleep (d : Int)
  deriving DecidableEq, Repr

/-- Result of a run of `retry`: the returned error (`none` is `nil`), the state the
closure leaves behind and the events in the order they happened. -/
structure RetryRun (σ ε : Type) where
  err : Option ε
  state : σ
  trace : List (RetryEvent ε)

/-- Number of invocations of `f` in a trace. -/
def invocations {ε : Type} (t : List (RetryEvent ε)) : Nat :=
  t.countP (fun e => match e with | .invoke _ => true | .sleep _ => false)

/-- Number of calls of `time.Sleep` in a trace. -/
def sleeps {ε : Type} (t : List (RetryEvent ε)) : Nat :=
  t.countP (fun e => match e with | .invoke _ => false | .sleep _ => true)

/-- The loop `for i := 0; i < attempts; i++` of `retry`, by the number of iterations
left (`attempts - i`); `err` is the variable `err`, `trace` the events so far. -/
def retryLoop {σ ε : Type} (sleep : Int) (f : σ → Option ε × σ) :
    Nat → Option ε → σ → List (RetryEvent ε) → RetryRun σ ε
  | 0, err, s, trace => ⟨err, s, trace⟩
  | n + 1, _, s, trace =>
    match f s with
    | (none, s') => ⟨none, s', trace ++ [.invoke none]⟩
    | (some e, s') =>
      retryLoop sleep f n (some e) s' (trace ++ [.invoke (some e), .sleep sleep])

/-- Embedding of `retry(attempts, sleep, f)`. -/
def retry {σ ε : Type} (attempts : Int) (sleep : Int) (f : σ → Option ε × σ) (s : σ) :
    RetryRun σ ε :=
  retryLoop sleep f attempts.toNat none s []

/-- State of the closure after `i` invocations, starting from `s`. -/
def stateAfter {σ ε : Type} (f : σ → Option ε × σ) (s : σ) : Nat → σ
  | 0 => s
  | i + 1 => (f (stateAfter f s i)).2

/-- Result of the `i`-th invocation of the closure (counting from 1), starting from `s`. -/
def outcome {σ ε : Type} (f : σ → Option ε × σ) (s : σ) (i : Nat) : Option ε :=
  (f (stateAfter f s (i - 1))).1

/-! ## Cheapest / most expensive ranking -/

/-- The expression `string(sample.Metric["instance_type"])`. -/
def Sample.instanceType (s : Sample) : String := s.Metric.get "instance_type"

/-- The expression `string(sample.Metric["zone"])`. -/
def Sample.zone (s : Sample) : String := s.Metric.get "zone"

/-- The comparison passed to `sort.Slice` in the cheapest/most expensive ranking. -/
def valueLess (a b : Sample) : Bool := decide (a.Value < b.Value)

/-- Embedding of `GetTop3CheapestAndMostExpensiveInstanceTypes`, from the outcome of
its query on.  The first loop appends `vector[i]` for `i = 0, 1, ..` while `i < 3` and
`i < len(vector)`; the second walks from `len(vector) - 1` down while fewer than 3
names are collected. -/
def GetTop3CheapestAndMostExpensiveInstanceTypes (sorter : SliceSorter)
    (result : QueryResult) : Except Error (List String × List String) :=
  match result with
  | .failed cause => .error (.queryFailed cause)
  | .notVector => .error .resultNotVector
  | .vector vector =>
    if vector.length = 0 then .error .noDataFound
    else
      let vector := sorter.run valueLess vector
      let cheapestCount := 3
      let expensiveCount := 3
      let cheapestList := (vector.take cheapestCount).map Sample.instanceType
      let expensiveList := (vector.reverse.take expensiveCount).map Sample.instanceType
      .ok (cheapestList, expensiveList)

/-- The samples of the scenario of the specification. -/
def scenarioVector : List Sample :=
  [⟨[("instance_type", "m5.large"), ("zone", "use2-az1")], 0.05⟩,
   ⟨[("instance_type", "m5.xlarge"), ("zone", "use2-az1")], 0.10⟩,
   ⟨[("instance_type", "c5.large"), ("zone", "use2-az1")], 0.03⟩]

/-! ## Go maps -/

/-- A Go `map[string]ν` as a key/value list; the operations keep the keys distinct. -/
abbrev GoMap (ν : Type) := List (String × ν)

/-- The lookup `v, ok := m[k]`. -/
def GoMap.get? {ν : Type} (m : GoMap ν) (k : String) : Option ν := m.lookup k

/-- The assignment `m[k] = v`: a value already stored under `k` is overwritten. -/
def GoMap.set {ν : Type} (m : GoMap ν) (k : String) (v : ν) : GoMap ν :=
  (k, v) :: m.filter (fun e => e.1 != k)

/-- The keys of a map. -/
def GoMap.keys {ν : Type} (m : GoMap ν) : List String := m.map Prod.fst

/-- Iteration order of `for k, v := range m`: some enumeration of the entries. -/
structure MapRange where
  order : {ν : Type} → GoMap ν → List (String × ν)
  perm : ∀ {ν : Type} (m : GoMap ν), (order m).Perm m

/-- The executable instance of `MapRange`: entries in the order they are stored. -/
def storedOrder : MapRange where
  order := fun m => m
  perm := fun m => List.Perm.refl m

/-! ## Volatility ranking -/

/-- The key `fmt.Sprintf("%s:%s", region, instanceType)`. -/
def regionKey (region instanceType : String) : String :=
  region ++ ":" ++ instanceType

/-- The loops filling `maxMap` and `minMap` from a vector. -/
def vectorMap (region : String) (vector : List Sample) : GoMap Rat :=
  vector.foldl (fun m sample => m.set (regionKey region sample.instanceType) sample.Value) []

/-- The loop filling `ratioMap`: keys of `maxMap` whose min is missing or `<= 0` are
skipped, the others get the `float64` quotient `maxVal / minVal`. -/
def ratioMapOf (rangeMax : MapRange) (maxMap minMap : GoMap Rat) : GoMap Rat :=
  (rangeMax.order maxMap).foldl (fun ratioMap e =>
    match minMap.get? e.1 with
    | none => ratioMap
    | some minVal => if minVal ≤ 0 then ratioMap else ratioMap.set e.1 (fdiv e.2 minVal)) []

/-- The local type `kv` of `GetTop3InstanceTypes`. -/
structure kv where
  Key : String
  Ratio : Rat
  deriving DecidableEq, Repr

/-- The comparison passed to `sort.Slice` in the volatility ranking. -/
def ratioGreater (a b : kv) : Bool := decide (a.Ratio > b.Ratio)

/-- The slice `ratios` of `GetTop3InstanceTypes` after `sort.Slice`. -/
def sortedRatios (sorter : SliceSorter) (rangeMax rangeRatio : MapRange) (region : String)
    (maxVector minVector : List Sample) : List kv :=
  let maxMap := vectorMap region maxVector
  let minMap := vectorMap region minVector
  let ratioMap := ratioMapOf rangeMax maxMap minMap
  let ratios := (rangeRatio.order ratioMap).map (fun e => kv.mk e.1 e.2)
  sorter.run ratioGreater ratios

/-- Embedding of `GetTop3InstanceTypes`, from the outcomes of its two queries on. -/
def GetTop3InstanceTypes (sorter : SliceSorter) (rangeMax rangeRatio : MapRange)
    (region : String) (maxResult minResult : QueryResult) : Except Error (List String) :=
  match maxResult, minResult with
  | .failed cause, _ => .error (.queryMaxFailed cause)
  | _, .failed cause => .error (.queryMinFailed cause)
  | .notVector, _ => .error .maxNotVector
  | _, .notVector => .error .minNotVector
  | .vector maxVector, .vector minVector =>
    let ratios := sortedRatios sorter rangeMax rangeRatio region maxVector minVector
    let topN := if ratios.length < 3 then ratios.length else 3
    .ok ((ratios.take topN).map kv.Key)

/-- A key of the max map is eligible when the min map has a value `> 0` for it. -/
def eligibleKey (minMap : GoMap Rat) (key : String) : Bool :=
  match minMap.get? key with
  | none => false
  | some minVal => decide (0 < minVal)

/-- The ratio `max/min` of a key, as the `float64` division computes it, when both maps
have it. -/
def ratioOf (maxMap minMap : GoMap Rat) (key : String) : Option Rat :=
  match maxMap.get? key, minMap.get? key with
  | some maxVal, some minVal => some (fdiv maxVal minVal)
  | _, _ => none

/-! ## Highest saving ranking -/

/-- The one field of `apis.InstanceTypePrice` the program reads. -/
structure InstanceTypePrice where
  OnDemandPricePerHour : Rat
  deriving DecidableEq, Repr

/-- The price table `apis.RegionalInstancePrice` (entries are taken to be non-nil). -/
structure RegionalInstancePrice where
  InstanceTypePrices : GoMap InstanceTypePrice
  deriving DecidableEq, Repr

/-- Embedding of `GetOnDemandPrice`. -/
def GetOnDemandPrice (priceData : RegionalInstancePrice) (instanceType : String) :
    Except Error Rat :=
  match priceData.InstanceTypePrices.get? instanceType with
  | none => .error (.notExist instanceType)
  | some data => .ok data.OnDemandPricePerHour

/-- The local type `SavingResult` of `GetTop3HighestSavingInstance`. -/
structure SavingResult where
  InstanceType : String
  Zone : String
  SavingRatio : Rat
  deriving DecidableEq, Repr

/-- The comparison passed to `sort.Slice` in the highest saving ranking. -/
def savingGreater (a b : SavingResult) : Bool := decide (a.SavingRatio > b.SavingRatio)

/-- One iteration of the loop over the samples: the entry appended to `results`, with
the saving ratio `(odPrice - spotPrice) / odPrice` computed in `float64`, or `none` when
the sample is skipped by `continue`. -/
def savingOf (priceData : RegionalInstancePrice) (sample : Sample) : Option SavingResult :=
  let spotPrice := sample.Value
  let instanceType := sample.instanceType
  let zone := sample.zone
  match GetOnDemandPrice priceData instanceType with
  | .error _ => none
  | .ok odPrice =>
    if odPrice ≤ 0 then none
    else some ⟨instanceType, zone, fdiv (fsub odPrice spotPrice) odPrice⟩

/-- The loop building `results`. -/
def savingResults (priceData : RegionalInstancePrice) (vector : List Sample) :
    List SavingResult :=
  vector.foldl (fun results sample =>
    match savingOf priceData sample with
    | none => results
    | some r => results ++ [r]) []

/-- The slice `results` of `GetTop3HighestSavingInstance` after `sort.Slice`. -/
def sortedSavings (sorter : SliceSorter) (priceData : RegionalInstancePrice)
    (vector : List Sample) : List SavingResult :=
  sorter.run savingGreater (savingResults priceData vector)

/-- The inner slice `[]string{InstanceType, Zone}` of an output entry. -/
def SavingResult.pair (r : SavingResult) : List String := [r.InstanceType, r.Zone]

/-- Embedding of `GetTop3HighestSavingInstance`, from the outcome of its query on. -/
def GetTop3HighestSavingInstance (sorter : SliceSorter) (priceData : RegionalInstancePrice)
    (result : QueryResult) : Except Error (List (List String)) :=
  match result with
  | .failed cause => .error (.queryFailed cause)
  | .notVector => .error .resultNotVector
  | .vector vector =>
    if vector.length = 0 then .error .noDataFound
    else
      let results := savingResults priceData vector
      if results.length = 0 then .error .noValidInstance
      else
        let results := sorter.run savingGreater results
        let topN := if results.length < 3 then results.length else 3
        .ok ((results.take topN).map SavingResult.pair)

/-- A sample is eligible when its instance type is in the catalog with a price `> 0`. -/
def eligibleSample (priceData : RegionalInstancePrice) (sample : Sample) : Bool :=
  match priceData.InstanceTypePrices.get? sample.instanceType with
  | none => false
  | some data => decide (0 < data.OnDemandPricePerHour)

/-- The samples a query outcome carries (none when the query failed or returned
something else than a vector). -/
def QueryResult.samples : QueryResult → List Sample
  | .vector v => v
  | _ => []

/-- One iteration of the loop filling `ratioMap`: the entry stored, or `none` when the
key is skipped by `continue`. -/
def ratioEntry (minMap : GoMap Rat) (e : String × Rat) : Option (String × Rat) :=
  match minMap.get? e.1 with
  | none => none
  | some minVal => if minVal ≤ 0 then none else some (e.1, fdiv e.2 minVal)

/-- The eligible keys of the volatility ranking: the keys of the max map whose min
value exists and is `> 0`. -/
def eligibleKeys (maxMap minMap : GoMap Rat) : Finset String :=
  maxMap.keys.toFinset.filter (fun k => eligibleKey minMap k = true)

/-! ## Inputs used for evaluation -/

/-- An operation that fails twice and then succeeds; its state counts the invocations. -/
def failTwice (n : Nat) : Option String × Nat :=
  if n < 2 then (some "transient", n + 1) else (none, n + 1)

/-- An operation that always fails, each time with a different error. -/
def failAlways (n : Nat) : Option Error × Nat :=
  (some (if n = 0 then .noDataFound else if n = 1 then .resultNotVector
    else .queryFailed "timeout"), n + 1)

/-- The max vector of the volatility scenario: `r:a` at 10 and `r:b` at 4. -/
def scenarioMax : List Sample :=
  [⟨[("instance_type", "a")], 10⟩, ⟨[("instance_type", "b")], 4⟩]

/-- The min vector of the volatility scenario: `r:a` at 2 and `r:b` at 0. -/
def scenarioMin : List Sample :=
  [⟨[("instance_type", "a")], 2⟩, ⟨[("instance_type", "b")], 0⟩]

/-- A price table for evaluation: `m5.large` and `m5.xlarge` are priced, `t2.nano` has
price 0 and `c5.large` is missing. -/
def scenarioPrices : RegionalInstancePrice :=
  ⟨[("m5.large", ⟨0.096⟩), ("m5.xlarge", ⟨0.25⟩), ("t2.nano", ⟨0⟩)]⟩

/-- A region vector in which no sample is eligible for `scenarioPrices`: `c5.large` is
missing from the table and `t2.nano` is priced 0. -/
def scenarioSkipped : List Sample :=
  [⟨[("instance_type", "c5.large"), ("zone", "use2-az1")], 0.03⟩,
   ⟨[("instance_type", "t2.nano"), ("zone", "use2-az2")], 0.002⟩]

/-- The events of a run of failed invocations: each failure is followed by one sleep. -/
def failureEvents {ε : Type} (sleep : Int) : List ε → List (RetryEvent ε)
  | [] => []
  | e :: es => .invoke (some e) :: .sleep sleep :: failureEvents sleep es

/-- A max vector in which the instance type `a` occurs twice, at 3 and then at 10. -/
def repeatedMax : List Sample :=
  [⟨[("instance_type", "a")], 3⟩, ⟨[("instance_type", "a")], 10⟩]

/-- A min vector holding the instance type `a` at 2. -/
def repeatedMin : List Sample :=
  [⟨[("instance_type", "a")], 2⟩]

/-! ## `sort.Slice` as the Go standard library implements it

`sort.Slice(x, less)` calls `pdqsort_func(data, 0, n, bits.Len(n))` of
`sort/zsortfunc.go` (Go 1.19 and later), which reaches the slice only through
`data.Less(i, j)` and `data.Swap(i, j)`.  Here `data` is the list of the input positions
of the elements of the slice and `cmp p q` tells whether the input element at position
`p` is less than the one at position `q`.  Loops are recursions on a bound of their
number of iterations. -/

/-- The call `data.Less(i, j)`. -/
def dataLess (cmp : Nat → Nat → Bool) (data : List Nat) (i j : Nat) : Bool :=
  cmp (data.getD i 0) (data.getD j 0)

/-- The call `data.Swap(i, j)`. -/
def dataSwap (data : List Nat) (i j : Nat) : List Nat :=
  (data.set i (data.getD j 0)).set j (data.getD i 0)

/-- The loop `for j := i; j > a && data.Less(j, j-1); j-- { data.Swap(j, j-1) }`. -/
def insertionSort_inner (cmp : Nat → Nat → Bool) (a : Nat) : Nat → List Nat → List Nat
  | 0, data => data
  | j + 1, data =>
    if a < j + 1 && dataLess cmp data (j + 1) j then
      insertionSort_inner cmp a j (dataSwap data (j + 1) j)
    else data

/-- The loop `for i := a + 1; i < b; i++` of `insertionSort_func`. -/
def insertionSort_outer (cmp : Nat → Nat → Bool) (a b : Nat) :
    Nat → Nat → List Nat → List Nat
  | 0, _, data => data
  | fuel + 1, i, data =>
    if i < b then insertionSort_outer cmp a b fuel (i + 1) (insertionSort_inner cmp a i data)
    else data

/-- Embedding of `insertionSort_func(data, a, b)`. -/
def insertionSort_func (cmp : Nat → Nat → Bool) (data : List Nat) (a b : Nat) : List Nat :=
  insertionSort_outer cmp a b (b - a) (a + 1) data

/-- Embedding of `siftDown_func(data, lo, hi, first)`; `root` starts at `lo`. -/
def siftDown_func (cmp : Nat → Nat → Bool) (hi first : Nat) : Nat → Nat → List Nat → List Nat
  | 0, _, data => data
  | fuel + 1, root, data =>
    let child := 2 * root + 1
    if child ≥ hi then data
    else
      let child :=
        if child + 1 < hi && dataLess cmp data (first + child) (first + child + 1)
        then child + 1 else child
      if !dataLess cmp data (first + root) (first + child) then data
      else siftDown_func cmp hi first fuel child (dataSwap data (first + root) (first + child))

/-- The loop `for i := (hi - 1) / 2; i >= 0; i--` of `heapSort_func`; `n` is `i + 1`. -/
def heapSort_build (cmp : Nat → Nat → Bool) (hi first : Nat) : Nat → List Nat → List Nat
  | 0, data => data
  | i + 1, data => heapSort_build cmp hi first i (siftDown_func cmp hi first hi i data)

/-- The loop `for i := hi - 1; i >= 0; i--` of `heapSort_func`; `n` is `i + 1`. -/
def heapSort_pop (cmp : Nat → Nat → Bool) (first : Nat) : Nat → List Nat → List Nat
  | 0, data => data
  | i + 1, data =>
    heapSort_pop cmp first i (siftDown_func cmp i first i 0 (dataSwap data first (first + i)))

/-- Embedding of `heapSort_func(data, a, b)`. -/
def heapSort_func (cmp : Nat → Nat → Bool) (data : List Nat) (a b : Nat) : List Nat :=
  let first := a
  let hi := b - a
  heapSort_pop cmp first hi (heapSort_build cmp hi first ((hi - 1) / 2 + 1) data)

/-- The function `bits.Len`: the number of bits of `x`. -/
def bitsLen (x : Nat) : Nat := if x = 0 then 0 else Nat.log2 x + 1

/-- Embedding of `(*xorshift).Next` on 64-bit words. -/
def xorshiftNext (r : Nat) : Nat :=
  let r := r ^^^ ((r <<< 13) % 2 ^ 64)
  let r := r ^^^ (r >>> 7)
  r ^^^ ((r <<< 17) % 2 ^ 64)

/-- The loop `for i := 0; i < 3; i++` of `breakPatterns_func`; `n` is `3 - i`. -/
def breakPatterns_loop (a length modulus idx : Nat) : Nat → Nat → Nat → List Nat → List Nat
  | 0, _, _, data => data
  | n + 1, i, random, data =>
    let random := xorshiftNext random
    let other := random &&& (modulus - 1)
    let other := if other ≥ length then other - length else other
    breakPatterns_loop a length modulus idx n (i + 1) random
      (dataSwap data (idx + i) (a + other))

/-- Embedding of `breakPatterns_func(data, a, b)`. -/
def breakPatterns_func (data : List Nat) (a b : Nat) : List Nat :=
  let length := b - a
  if length ≥ 8 then
    let random := length
    let modulus := 2 ^ bitsLen length
    let idx := a + (length / 4) * 2 - 1
    breakPatterns_loop a length modulus idx 3 0 random data
  else data

/-- The type `sortedHint`. -/
inductive sortedHint where
  | unknownHint
  | increasingHint
  | decreasingHint
  deriving DecidableEq, Repr

/-- Embedding of `order2_func(data, a, b, swaps)`: the two positions in order and the
updated count of swaps. -/
def order2_func (cmp : Nat → Nat → Bool) (data : List Nat) (a b swaps : Nat) :
    Nat × Nat × Nat :=
  if dataLess cmp data b a then (b, a, swaps + 1) else (a, b, swaps)

/-- Embedding of `median_func(data, a, b, c, swaps)`. -/
def median_func (cmp : Nat → Nat → Bool) (data : List Nat) (a b c swaps : Nat) : Nat × Nat :=
  match order2_func cmp data a b swaps with
  | (a, b, swaps) =>
    match order2_func cmp data b c swaps with
    | (b, _, swaps) =>
      match order2_func cmp data a b swaps with
      | (_, b, swaps) => (b, swaps)

/-- Embedding of `medianAdjacent_func(data, a, swaps)`. -/
def medianAdjacent_func (cmp : Nat → Nat → Bool) (data : List Nat) (a swaps : Nat) :
    Nat × Nat :=
  median_func cmp data (a - 1) a (a + 1) swaps

/-- Embedding of `choosePivot_func(data, a, b)`. -/
def choosePivot_func (cmp : Nat → Nat → Bool) (data : List Nat) (a b : Nat) :
    Nat × sortedHint :=
  let l := b - a
  let i := a + l / 4 * 1
  let j := a + l / 4 * 2
  let k := a + l / 4 * 3
  let r : Nat × Nat :=
    if l ≥ 8 then
      if l ≥ 50 then
        match medianAdjacent_func cmp data i 0 with
        | (i, swaps) =>
          match medianAdjacent_func cmp data j swaps with
          | (j, swaps) =>
            match medianAdjacent_func cmp data k swaps with
            | (k, swaps) => median_func cmp data i j k swaps
      else median_func cmp data i j k 0
    else (j, 0)
  if r.2 = 0 then (r.1, .increasingHint)
  else if r.2 = 4 * 3 then (r.1, .decreasingHint)
  else (r.1, .unknownHint)

/-- Embedding of `reverseRange_func(data, a, b)`: the loop `for i < j`, with `i` and
`j` starting at `a` and `b - 1`. -/
def reverseRange_loop : Nat → Nat → Nat → List Nat → List Nat
  | 0, _, _, data => data
  | fuel + 1, i, j, data =>
    if i < j then reverseRange_loop fuel (i + 1) (j - 1) (dataSwap data i j) else data

/-- Embedding of `reverseRange_func(data, a, b)`. -/
def reverseRange_func (data : List Nat) (a b : Nat) : List Nat :=
  reverseRange_loop (b - a) a (b - 1) data

/-- A loop `for i <= j && p(i) { i++ }`. -/
def scanUp (p : Nat → Bool) (j : Nat) : Nat → Nat → Nat
  | 0, i => i
  | fuel + 1, i => if i ≤ j && p i then scanUp p j fuel (i + 1) else i

/-- A loop `for i <= j && p(j) { j-- }`, where `i ≥ 1`. -/
def scanDown (p : Nat → Bool) (i : Nat) : Nat → Nat
  | 0 => 0
  | j + 1 => if i ≤ j + 1 && p (j + 1) then scanDown p i j else j + 1

/-- The loop `for { ... }` of `partition_func`: the slice and the final `j`. -/
def partition_loop (cmp : Nat → Nat → Bool) (a : Nat) :
    Nat → Nat → Nat → List Nat → List Nat × Nat
  | 0, _, j, data => (data, j)
  | fuel + 1, i, j, data =>
    let i := scanUp (fun i => dataLess cmp data i a) j (j + 1 - i) i
    let j := scanDown (fun j => !dataLess cmp data j a) i j
    if i > j then (data, j)
    else partition_loop cmp a fuel (i + 1) (j - 1) (dataSwap data i j)

/-- Embedding of `partition_func(data, a, b, pivot)`: the slice, `newpivot` and
`alreadyPartitioned`. -/
def partition_func (cmp : Nat → Nat → Bool) (data : List Nat) (a b pivot : Nat) :
    List Nat × Nat × Bool :=
  let data := dataSwap data a pivot
  let i := a + 1
  let j := b - 1
  let i := scanUp (fun i => dataLess cmp data i a) j (j + 1 - i) i
  let j := scanDown (fun j => !dataLess cmp data j a) i j
  if i > j then (dataSwap data j a, j, true)
  else
    let data := dataSwap data i j
    match partition_loop cmp a (b - a) (i + 1) (j - 1) data with
    | (data, j) => (dataSwap data j a, j, false)

/-- The loop `for { ... }` of `partitionEqual_func`: the slice and the final `i`. -/
def partitionEqual_loop (cmp : Nat → Nat → Bool) (a : Nat) :
    Nat → Nat → Nat → List Nat → List Nat × Nat
  | 0, i, _, data => (data, i)
  | fuel + 1, i, j, data =>
    let i := scanUp (fun i => !dataLess cmp data a i) j (j + 1 - i) i
    let j := scanDown (fun j => dataLess cmp data a j) i j
    if i > j then (data, i)
    else partitionEqual_loop cmp a fuel (i + 1) (j - 1) (dataSwap data i j)

/-- Embedding of `partitionEqual_func(data, a, b, pivot)`: the slice and `newpivot`. -/
def partitionEqual_func (cmp : Nat → Nat → Bool) (data : List Nat) (a b pivot : Nat) :
    List Nat × Nat :=
  let data := dataSwap data a pivot
  partitionEqual_loop cmp a (b - a + 1) (a + 1) (b - 1) data

/-- The loop `for j := i - 1; j >= 1; j--` of `partialInsertionSort_func`, which shifts
the smaller element to the left; `n` is `j`. -/
def shiftLeft_loop (cmp : Nat → Nat → Bool) : Nat → List Nat → List Nat
  | 0, data => data
  | j + 1, data =>
    if !dataLess cmp data (j + 1) j then data
    else shiftLeft_loop cmp j (dataSwap data (j + 1) j)

/-- The loop `for j := i + 1; j < b; j++` of `partialInsertionSort_func`, which shifts
the greater element to the right. -/
def shiftRight_loop (cmp : Nat → Nat → Bool) (b : Nat) : Nat → Nat → List Nat → List Nat
  | 0, _, data => data
  | fuel + 1, j, data =>
    if j < b then
      if !dataLess cmp data j (j - 1) then data
      else shiftRight_loop cmp b fuel (j + 1) (dataSwap data j (j - 1))
    else data

/-- The loop `for j := 0; j < maxSteps; j++` of `partialInsertionSort_func`; `n` is
`maxSteps - j`.  The result is the slice and the returned boolean. -/
def partialInsertionSort_loop (cmp : Nat → Nat → Bool) (a b : Nat) :
    Nat → Nat → List Nat → List Nat × Bool
  | 0, _, data => (data, false)
  | n + 1, i, data =>
    let i := scanUp (fun i => !dataLess cmp data i (i - 1)) (b - 1) (b - i) i
    if i = b then (data, true)
    else if b - a < 50 then (data, false)
    else
      let data := dataSwap data i (i - 1)
      let data := if i - a ≥ 2 then shiftLeft_loop cmp (i - 1) data else data
      let data := if b - i ≥ 2 then shiftRight_loop cmp b (b - i) (i + 1) data else data
      partialInsertionSort_loop cmp a b n i data

/-- Embedding of `partialInsertionSort_func(data, a, b)`. -/
def partialInsertionSort_func (cmp : Nat → Nat → Bool) (data : List Nat) (a b : Nat) :
    List Nat × Bool :=
  partialInsertionSort_loop cmp a b 5 (a + 1) data

/-- Embedding of `pdqsort_func(data, a, b, limit)`.  One unit of `fuel` is spent by each
iteration of the loop `for { ... }` and by each recursive call; `wasBalanced` and
`wasPartitioned` are the two local variables, `true` on entry. -/
def pdqsort_func (cmp : Nat → Nat → Bool) :
    Nat → List Nat → Nat → Nat → Nat → Bool → Bool → List Nat
  | 0, data, _, _, _, _, _ => data
  | fuel + 1, data, a, b, limit, wasBalanced, wasPartitioned =>
    let length := b - a
    if length ≤ 12 then insertionSort_func cmp data a b
    else if limit = 0 then heapSort_func cmp data a b
    else
      let data := if !wasBalanced then breakPatterns_func data a b else data
      let limit := if !wasBalanced then limit - 1 else limit
      let ph := choosePivot_func cmp data a b
      let data := if ph.2 = .decreasingHint then reverseRange_func data a b else data
      let pivot := if ph.2 = .decreasingHint then (b - 1) - (ph.1 - a) else ph.1
      let hint := if ph.2 = .decreasingHint then sortedHint.increasingHint else ph.2
      let tried : List Nat × Bool :=
        if wasBalanced && wasPartitioned && hint = .increasingHint then
          partialInsertionSort_func cmp data a b
        else (data, false)
      if tried.2 then tried.1
      else
        let data := tried.1
        if 0 < a && !dataLess cmp data (a - 1) pivot then
          match partitionEqual_func cmp data a b pivot with
          | (data, mid) => pdqsort_func cmp fuel data mid b limit wasBalanced wasPartitioned
        else
          match partition_func cmp data a b pivot with
          | (data, mid, alreadyPartitioned) =>
            let leftLen := mid - a
            let rightLen := b - mid
            let balanceThreshold := length / 8
            if leftLen < rightLen then
              let data := pdqsort_func cmp fuel data a mid limit true true
              pdqsort_func cmp fuel data (mid + 1) b limit
                (decide (leftLen ≥ balanceThreshold)) alreadyPartitioned
            else
              let data := pdqsort_func cmp fuel data (mid + 1) b limit true true
              pdqsort_func cmp fuel data a mid limit
                (decide (rightLen ≥ balanceThreshold)) alreadyPartitioned

/-- The positions of the input elements in the order `sort.Slice` leaves them: the
call `pdqsort_func(data, 0, n, bits.Len(n))`. -/
def sortSlicePositions (cmp : Nat → Nat → Bool) (n : Nat) : List Nat :=
  pdqsort_func cmp (n + 1) (List.range n) 0 n (bitsLen n) true true

/-- The comparison of two input positions by `less`. -/
def lessAt {α : Type} (less : α → α → Bool) (xs : List α) (p q : Nat) : Bool :=
  match xs[p]?, xs[q]? with
  | some x, some y => less x y
  | _, _ => false

/-- The slice as `sort.Slice` of the Go standard library leaves it. -/
def goSortSlice {α : Type} (less : α → α → Bool) (xs : List α) : List α :=
  (sortSlicePositions (lessAt less xs) xs.length).filterMap (fun p => xs[p]?)

/-- The sort of the Go standard library as a `SliceSorter`: `run` is `goSortSlice` on
every slice that `pdqsort_func` leaves as an ordered permutation of its input, which the
Go function does for every strict weak ordering.  The test of these two properties has no
counterpart in Go; it lets the contract hold without a proof of `pdqsort_func`, and the
theorems that use `goSorter` show that `run` is `goSortSlice` on their inputs. -/
def goSorter : SliceSorter where
  run := fun less xs =>
    if (sortSlicePositions (lessAt less xs) xs.length).Perm (List.range xs.length) ∧
        (goSortSlice less xs).Pairwise (fun a b => less b a = false) then
      goSortSlice less xs
    else insertionSort less xs
  perm := by
    intro α less xs
    have hrange : ∀ l : List α, (List.range l.length).filterMap (fun p => l[p]?) = l := by
      intro l
      induction l with
      | nil => rfl
      | cons x l ih =>
        rw [List.length_cons, List.range_succ_eq_map, List.filterMap_cons]
        simp only [List.getElem?_cons_zero, List.filterMap_map]
        have hsucc : ((fun p => (x :: l)[p]?) ∘ Nat.succ) = fun p => l[p]? := by
          funext p
          simp
        rw [hsucc, ih]
    by_cases h : (sortSlicePositions (lessAt less xs) xs.length).Perm (List.range xs.length) ∧
        (goSortSlice less xs).Pairwise (fun a b => less b a = false)
    · simp only [if_pos h]
      have hp := h.1.filterMap (fun p => xs[p]?)
      rw [hrange xs] at hp
      exact hp
    · simp only [if_neg h]
      exact insertionSorter.perm less xs
  sorted := by
    intro α less hless xs
    by_cases h : (sortSlicePositions (lessAt less xs) xs.length).Perm (List.range xs.length) ∧
        (goSortSlice less xs).Pairwise (fun a b => less b a = false)
    · simp only [if_pos h]
      exact h.2
    · simp only [if_neg h]
      exact insertionSorter.sorted less hless xs

/-- Thirteen samples `t0`, .., `t12` at price 1, except `t6` at price 2. -/
def tieVector : List Sample :=
  [⟨[("instance_type", "t0")], 1⟩, ⟨[("instance_type", "t1")], 1⟩,
   ⟨[("instance_type", "t2")], 1⟩, ⟨[("instance_type", "t3")], 1⟩,
   ⟨[("instance_type", "t4")], 1⟩, ⟨[("instance_type", "t5")], 1⟩,
   ⟨[("instance_type", "t6")], 2⟩, ⟨[("instance_type", "t7")], 1⟩,
   ⟨[("instance_type", "t8")], 1⟩, ⟨[("instance_type", "t9")], 1⟩,
   ⟨[("instance_type", "t10")], 1⟩, ⟨[("instance_type", "t11")], 1⟩,
   ⟨[("instance_type", "t12")], 1⟩]

/-- An iteration order of `range`: the entries in the order in which their keys were
first stored (`GoMap.set` puts the newest entry in front). -/
def insertionOrder : MapRange where
  order := fun m => m.reverse
  perm := fun m => List.reverse_perm m

/-- Another iteration order of `range`: the same cycle, entered at the second entry, as
the random start offset of the Go runtime does. -/
def rotatedOrder : MapRange where
  order := fun m => m.reverse.rotate 1
  perm := fun m => (List.rotate_perm m.reverse 1).trans (List.reverse_perm m)

/-- A max vector of four instance types, all at 2. -/
def tiedMax : List Sample :=
  [⟨[("instance_type", "a")], 2⟩, ⟨[("instance_type", "b")], 2⟩,
   ⟨[("instance_type", "c")], 2⟩, ⟨[("instance_type", "d")], 2⟩]

/-- A min vector of the same four instance types, all at 1. -/
def tiedMin : List Sample :=
  [⟨[("instance_type", "a")], 1⟩, ⟨[("instance_type", "b")], 1⟩,
   ⟨[("instance_type", "c")], 1⟩, ⟨[("instance_type", "d")], 1⟩]

/-- Insertion of the position `x` behind the sorted positions `rp`, which are listed
last first: `x` moves to the left past every position that it is less than. -/
def insertLast (cmp : Nat → Nat → Bool) (x : Nat) : List Nat → List Nat
  | [] => [x]
  | y :: rp => if cmp x y then y :: insertLast cmp x rp else x :: y :: rp

/-- The order of a stable ascending sort on positions: by key, and by position among
equal keys. -/
def posBefore (key : Nat → Rat) (p q : Nat) : Prop :=
  key p < key q ∨ (key p = key q ∧ p < q)

/-- The sort key of the sample at position `p` of a vector. -/
def valueAt (vector : List Sample) (p : Nat) : Rat :=
  match vector[p]? with
  | some s => s.Value
  | none => 0

/-- A max vector for the volatility ranking: `a` at 10, `b` at 4, `c` at 8, `d` at 6,
`e` at 4 and `f` at 9. -/
def rankedMax : List Sample :=
  [⟨[("instance_type", "a")], 10⟩, ⟨[("instance_type", "b")], 4⟩,
   ⟨[("instance_type", "c")], 8⟩, ⟨[("instance_type", "d")], 6⟩,
   ⟨[("instance_type", "e")], 4⟩, ⟨[("instance_type", "f")], 9⟩]

/-- A min vector for the volatility ranking: `a`, `c`, `d`, `e` at 2 and `b` at 0; `f`
is missing. -/
def rankedMin : List Sample :=
  [⟨[("instance_type", "a")], 2⟩, ⟨[("instance_type", "b")], 0⟩,
   ⟨[("instance_type", "c")], 2⟩, ⟨[("instance_type", "d")], 2⟩,
   ⟨[("instance_type", "e")], 2⟩]

/-- A price table for the highest saving ranking: `a` at 1, `b` at 2, `c` at 4, `d` at
8. -/
def savingPrices : RegionalInstancePrice :=
  ⟨[("a", ⟨1⟩), ("b", ⟨2⟩), ("c", ⟨4⟩), ("d", ⟨8⟩)]⟩

/-- A region vector for the highest saving ranking: spot prices 0.5 for `a` and `b`, 3
for `c`, 1 for `d`, and an instance type `x` that the table does not hold. -/
def savingVector : List Sample :=
  [⟨[("instance_type", "a"), ("zone", "z1")], 0.5⟩,
   ⟨[("instance_type", "b"), ("zone", "z1")], 0.5⟩,
   ⟨[("instance_type", "x"), ("zone", "z1")], 0.1⟩,
   ⟨[("instance_type", "c"), ("zone", "z2")], 3⟩,
   ⟨[("instance_type", "d"), ("zone", "z2")], 1⟩]

/-- A price table with `a` and `b` at 1. -/
def roundingPrices : RegionalInstancePrice :=
  ⟨[("a", ⟨1⟩), ("b", ⟨1⟩)]⟩

/-- A region vector with `a` at the spot price `2^-60` and `b` at 0: in `float64` both
savings are 1. -/
def roundingVector : List Sample :=
  [⟨[("instance_type", "a"), ("zone", "z")], 1 / 1152921504606846976⟩,
   ⟨[("instance_type", "b"), ("zone", "z")], 0⟩]

/-- Seven zone samples `u0`, .., `u6` with the prices 5, 3, 9, 1, 7, 2, 8. -/
def sevenVector : List Sample :=
  [⟨[("instance_type", "u0")], 5⟩, ⟨[("instance_type", "u1")], 3⟩,
   ⟨[("instance_type", "u2")], 9⟩, ⟨[("instance_type", "u3")], 1⟩,
   ⟨[("instance_type", "u4")], 7⟩, ⟨[("instance_type", "u5")], 2⟩,
   ⟨[("instance_type", "u6")], 8⟩]

/-- Five zone samples: `a` and `b` at price 2, `c`, `d` and `e` at price 1, in the
order `a`, `c`, `b`, `d`, `e`. -/
def smallTieVector : List Sample :=
  [⟨[("instance_type", "a")], 2⟩, ⟨[("instance_type", "c")], 1⟩,
   ⟨[("instance_type", "b")], 2⟩, ⟨[("instance_type", "d")], 1⟩,
   ⟨[("instance_type", "e")], 1⟩]

/-- A max vector of two keys with the `float64` values of 2.3808 and 23.808. -/
def floatTieMax : List Sample :=
  [⟨[("instance_type", "k1")], 2680542498210919 / 1125899906842624⟩,
   ⟨[("instance_type", "k2")], 3350678122763649 / 140737488355328⟩]

/-- A min vector of the same keys with the `float64` values of 1.5872 and 15.872. -/
def floatTieMin : List Sample :=
  [⟨[("instance_type", "k1")], 7148113328562451 / 4503599627370496⟩,
   ⟨[("instance_type", "k2")], 1116892707587883 / 70368744177664⟩]

/-! # Theorems -/

/-! ## Orderings used by the three sorts -/

theorem strictWeak_of_key {α : Type} (key : α → Rat) (less : α → α → Bool)
    (h : ∀ a b, less a b = decide (key a < key b)) : StrictWeak less := by
  refine ⟨?_, ?_, ?_⟩
  · intro a; simp [h]
  · intro a b c hab hbc
    simp only [h, decide_eq_true_eq] at *
    exact lt_trans hab hbc
  · intro a b c hab hba hbc hcb
    simp only [h, decide_eq_false_iff_not, not_lt] at *
    exact ⟨le_trans hbc hab, le_trans hba hcb⟩

theorem strictWeak_valueLess : StrictWeak valueLess :=
  strictWeak_of_key (fun s : Sample => s.Value) valueLess (fun _ _ => rfl)

theorem strictWeak_ratioGreater : StrictWeak ratioGreater :=
  strictWeak_of_key (fun r : kv => -r.Ratio) ratioGreater (fun a b => by
    simp [ratioGreater])

theorem strictWeak_savingGreater : StrictWeak savingGreater :=
  strictWeak_of_key (fun r : SavingResult => -r.SavingRatio) savingGreater (fun a b => by
    simp [savingGreater])

theorem sorted_by_value (sorter : SliceSorter) (vector : List Sample) :
    (sorter.run valueLess vector).Pairwise (fun a b => a.Value ≤ b.Value) := by
  refine (sorter.sorted valueLess strictWeak_valueLess vector).imp ?_
  intro a b hab
  simpa [valueLess] using hab

theorem sorted_by_ratio (sorter : SliceSorter) (ratios : List kv) :
    (sorter.run ratioGreater ratios).Pairwise (fun a b => b.Ratio ≤ a.Ratio) := by
  refine (sorter.sorted ratioGreater strictWeak_ratioGreater ratios).imp ?_
  intro a b hab
  simpa [ratioGreater] using hab

theorem sorted_by_saving (sorter : SliceSorter) (results : List SavingResult) :
    (sorter.run savingGreater results).Pairwise (fun a b => b.SavingRatio ≤ a.SavingRatio) := by
  refine (sorter.sorted savingGreater strictWeak_savingGreater results).imp ?_
  intro a b hab
  simpa [savingGreater] using hab

theorem length_run (sorter : SliceSorter) {α : Type} (less : α → α → Bool) (xs : List α) :
    (sorter.run less xs).length = xs.length :=
  (sorter.perm less xs).length_eq

/-- Taking `topN` elements with `topN = len` when `len < 3` and `3` otherwise is
taking the first three. -/
theorem take_topN {α : Type} (xs : List α) :
    xs.take (if xs.length < 3 then xs.length else 3) = xs.take 3 := by
  split
  · rw [List.take_length, List.take_of_length_le (by omega)]
  · rfl

/-- The first three elements are the first `min 3 n`. -/
theorem take_three {α : Type} (xs : List α) :
    xs.take 3 = xs.take (min 3 xs.length) := by
  by_cases h : xs.length < 3
  · rw [Nat.min_eq_right (by omega), List.take_length, List.take_of_length_le (by omega)]
  · rw [Nat.min_eq_left (by omega)]

/-- The last `min 3 n` elements, last first. -/
theorem reverse_take_three {α : Type} (xs : List α) :
    xs.reverse.take 3 = (xs.drop (xs.length - min 3 xs.length)).reverse := by
  rw [List.take_reverse]
  congr 2
  omega

/-! ## C1 -/

/-- C1: for every non-empty sample vector the zone ranking returns no error; with
`sorted` the vector as `sort.Slice` leaves it (a permutation of the input, ascending by
value), the cheapest list is the instance types of the first `min 3 n` samples of
`sorted` and the most expensive list is the instance types of its last `min 3 n`
samples, last first. -/
theorem cheapest_expensive_spec (sorter : SliceSorter) (vector : List Sample)
    (h : vector ≠ []) :
    (sorter.run valueLess vector).Perm vector ∧
    (sorter.run valueLess vector).Pairwise (fun a b => a.Value ≤ b.Value) ∧
    GetTop3CheapestAndMostExpensiveInstanceTypes sorter (.vector vector) =
      .ok (((sorter.run valueLess vector).take (min 3 vector.length)).map Sample.instanceType,
        ((sorter.run valueLess vector).drop
          (vector.length - min 3 vector.length)).reverse.map Sample.instanceType) := by
  refine ⟨sorter.perm _ _, sorted_by_value sorter vector, ?_⟩
  have hlen : ¬ vector.length = 0 := by
    intro h0; exact h (List.length_eq_zero.mp h0)
  have hl := length_run sorter valueLess vector
  simp only [GetTop3CheapestAndMostExpensiveInstanceTypes, if_neg hlen]
  rw [reverse_take_three, hl]
  rw [take_three, hl]

/-- C1, the scenario of the specification: (m5.large, 0.05), (m5.xlarge, 0.10),
(c5.large, 0.03). -/
theorem cheapest_expensive_spec_witness :
    scenarioVector ≠ [] ∧
    GetTop3CheapestAndMostExpensiveInstanceTypes insertionSorter (.vector scenarioVector) =
      .ok (["c5.large", "m5.large", "m5.xlarge"], ["m5.xlarge", "m5.large", "c5.large"]) := by
  have h : scenarioVector ≠ [] := by simp [scenarioVector]
  refine ⟨h, (cheapest_expensive_spec insertionSorter scenarioVector h).2.2.trans ?_⟩
  simp [insertionSorter, insertionSort, scenarioVector, valueLess, List.insertionSort,
    List.orderedInsert]
  norm_num [Sample.instanceType, Metric.get, List.lookup]

/-! ## Retry wrapper -/

theorem stateAfter_succ {σ ε : Type} (f : σ → Option ε × σ) (s : σ) (i : Nat) :
    stateAfter f (f s).2 i = stateAfter f s (i + 1) := by
  induction i with
  | zero => rfl
  | succ i ih => simp only [stateAfter, ih]

theorem outcome_succ {σ ε : Type} (f : σ → Option ε × σ) (s : σ) (i : Nat) (hi : 1 ≤ i) :
    outcome f (f s).2 i = outcome f s (i + 1) := by
  obtain ⟨j, rfl⟩ : ∃ j, i = j + 1 := ⟨i - 1, by omega⟩
  simp only [outcome, Nat.add_sub_cancel, stateAfter_succ]

theorem outcome_one {σ ε : Type} (f : σ → Option ε × σ) (s : σ) :
    outcome f s 1 = (f s).1 := rfl

theorem invocations_append {ε : Type} (t u : List (RetryEvent ε)) :
    invocations (t ++ u) = invocations t + invocations u := by
  simp [invocations, List.countP_append]

theorem sleeps_append {ε : Type} (t u : List (RetryEvent ε)) :
    sleeps (t ++ u) = sleeps t + sleeps u := by
  simp [sleeps, List.countP_append]

/-- The loop when the `k`-th invocation from the current state is the first success. -/
theorem retryLoop_success {σ ε : Type} (sleep : Int) (f : σ → Option ε × σ) :
    ∀ (k n : Nat) (err : Option ε) (s : σ) (trace : List (RetryEvent ε)),
      1 ≤ k → k ≤ n → (∀ i, 1 ≤ i → i < k → outcome f s i ≠ none) → outcome f s k = none →
      (retryLoop sleep f n err s trace).err = none ∧
      (retryLoop sleep f n err s trace).state = stateAfter f s k ∧
      invocations (retryLoop sleep f n err s trace).trace = invocations trace + k ∧
      sleeps (retryLoop sleep f n err s trace).trace = sleeps trace + (k - 1) ∧
      (retryLoop sleep f n err s trace).trace.getLast? = some (.invoke none) := by
  intro k
  induction k with
  | zero => intro n err s trace h1; omega
  | succ k ih =>
    intro n err s trace _ hkn hfail hok
    obtain ⟨m, rfl⟩ : ∃ m, n = m + 1 := ⟨n - 1, by omega⟩
    by_cases hk : k = 0
    · subst hk
      rw [outcome_one] at hok
      have hs : stateAfter f s (0 + 1) = (f s).2 := rfl
      rw [retryLoop, hs]
      rcases hfs : f s with ⟨r, s'⟩
      rw [hfs] at hok
      simp only at hok
      subst hok
      simp [invocations_append, sleeps_append, invocations, sleeps]
    · have h1 : outcome f s 1 ≠ none := hfail 1 (le_refl 1) (by omega)
      rw [outcome_one] at h1
      have hs : stateAfter f s (k + 1) = stateAfter f (f s).2 k := (stateAfter_succ f s k).symm
      rw [retryLoop, hs]
      rcases hfs : f s with ⟨r, s'⟩
      rw [hfs] at h1
      cases r with
      | none => exact absurd rfl h1
      | some e =>
        have hfail' : ∀ i, 1 ≤ i → i < k → outcome f s' i ≠ none := by
          intro i hi hik
          have := hfail (i + 1) (by omega) (by omega)
          rwa [← outcome_succ f s i hi, hfs] at this
        have hok' : outcome f s' k = none := by
          rw [← outcome_succ f s k (by omega), hfs] at hok
          exact hok
        obtain ⟨a, b, c, d, e'⟩ := ih m (some e) s'
          (trace ++ [.invoke (some e), .sleep sleep]) (by omega) (by omega) hfail' hok'
        refine ⟨a, b, ?_, ?_, e'⟩
        · rw [c, invocations_append]; simp [invocations]; omega
        · rw [d, sleeps_append]; simp [sleeps]; omega

/-- The loop when every one of the `n` invocations it makes fails. -/
theorem retryLoop_exhaust {σ ε : Type} (sleep : Int) (f : σ → Option ε × σ) :
    ∀ (n : Nat) (err : Option ε) (s : σ) (trace : List (RetryEvent ε)),
      1 ≤ n → (∀ i, 1 ≤ i → i ≤ n → outcome f s i ≠ none) →
      (retryLoop sleep f n err s trace).err = outcome f s n ∧
      (retryLoop sleep f n err s trace).state = stateAfter f s n ∧
      invocations (retryLoop sleep f n err s trace).trace = invocations trace + n ∧
      sleeps (retryLoop sleep f n err s trace).trace = sleeps trace + n ∧
      (retryLoop sleep f n err s trace).trace.getLast? = some (.sleep sleep) := by
  intro n
  induction n with
  | zero => intro err s trace h1; omega
  | succ n ih =>
    intro err s trace _ hfail
    have h1 : outcome f s 1 ≠ none := hfail 1 (le_refl 1) (by omega)
    rw [outcome_one] at h1
    have hs : stateAfter f s (n + 1) = stateAfter f (f s).2 n := (stateAfter_succ f s n).symm
    have ho : n ≠ 0 → outcome f s (n + 1) = outcome f (f s).2 n := fun hn =>
      (outcome_succ f s n (by omega)).symm
    rw [retryLoop, hs]
    rcases hfs : f s with ⟨r, s'⟩
    rw [hfs] at h1 ho
    cases r with
    | none => exact absurd rfl h1
    | some e =>
      by_cases hn : n = 0
      · subst hn
        simp [retryLoop, outcome, stateAfter, hfs, invocations_append, sleeps_append,
          invocations, sleeps]
      · have hfail' : ∀ i, 1 ≤ i → i ≤ n → outcome f s' i ≠ none := by
          intro i hi hik
          have := hfail (i + 1) (by omega) (by omega)
          rwa [← outcome_succ f s i hi, hfs] at this
        obtain ⟨a, b, c, d, e'⟩ := ih (some e) s'
          (trace ++ [.invoke (some e), .sleep sleep]) (by omega) hfail'
        refine ⟨by rw [a, ho hn], b, ?_, ?_, e'⟩
        · rw [c, invocations_append]; simp [invocations]; omega
        · rw [d, sleeps_append]; simp [sleeps]; omega

/-! ## C2 -/

/-- C2: when `f` fails on its first `k - 1` invocations and succeeds on its `k`-th,
with `1 ≤ k ≤ attempts`, `retry` returns `nil`, invokes `f` exactly `k` times, leaves
the closure in the state reached after `k` invocations, and the successful invocation
is the last thing it does. -/
theorem retry_success_at {σ ε : Type} (attempts : Int) (sleep : Int) (f : σ → Option ε × σ)
    (s : σ) (k : Nat) (hk1 : 1 ≤ k) (hk : (k : Int) ≤ attempts)
    (hfail : ∀ i, 1 ≤ i → i < k → outcome f s i ≠ none) (hok : outcome f s k = none) :
    (retry attempts sleep f s).err = none ∧
    invocations (retry attempts sleep f s).trace = k ∧
    (retry attempts sleep f s).state = stateAfter f s k ∧
    (retry attempts sleep f s).trace.getLast? = some (.invoke none) := by
  have hn : k ≤ attempts.toNat := by omega
  obtain ⟨a, b, c, _, e⟩ := retryLoop_success sleep f k attempts.toNat none s [] hk1 hn hfail hok
  refine ⟨a, ?_, b, e⟩
  rw [retry, c]
  simp [invocations]

/-- C2, the scenario of the specification: two failures then success, `attempts = 3`. -/
theorem retry_success_at_witness :
    (retry 3 10 failTwice 0).err = none ∧
    invocations (retry 3 10 failTwice 0).trace = 3 ∧
    (retry 3 10 failTwice 0).state = stateAfter failTwice 0 3 ∧
    (retry 3 10 failTwice 0).trace.getLast? = some (.invoke none) :=
  retry_success_at 3 10 failTwice 0 3 (by decide) (by decide)
    (by
      intro i h1 h3
      have : i = 1 ∨ i = 2 := by omega
      rcases this with rfl | rfl <;> simp [outcome, stateAfter, failTwice])
    (by simp [outcome, stateAfter, failTwice])

/-! ## C3 -/

/-- C3: when `attempts ≥ 1` and `f` fails on each of its first `attempts` invocations,
`retry` invokes `f` exactly `attempts` times and returns the error of the last of them,
whatever the errors are (the error type `ε` is arbitrary). -/
theorem retry_exhausted {σ ε : Type} (attempts : Int) (sleep : Int) (f : σ → Option ε × σ)
    (s : σ) (h1 : 1 ≤ attempts)
    (hfail : ∀ i : Nat, 1 ≤ i → (i : Int) ≤ attempts → outcome f s i ≠ none) :
    invocations (retry attempts sleep f s).trace = attempts.toNat ∧
    (retry attempts sleep f s).err = outcome f s attempts.toNat ∧
    (retry attempts sleep f s).err ≠ none := by
  have hn : 1 ≤ attempts.toNat := by omega
  have hfail' : ∀ i, 1 ≤ i → i ≤ attempts.toNat → outcome f s i ≠ none :=
    fun i hi hia => hfail i hi (by omega)
  obtain ⟨a, _, c, _, _⟩ := retryLoop_exhaust sleep f attempts.toNat none s [] hn hfail'
  refine ⟨?_, a, ?_⟩
  · rw [retry, c]; simp [invocations]
  · rw [show (retry attempts sleep f s).err = outcome f s attempts.toNat from a]
    exact hfail' attempts.toNat hn (le_refl _)

/-- C3 at `attempts = 3` with three different errors: the third one is returned. -/
theorem retry_exhausted_witness :
    (1 : Int) ≤ 3 ∧
    invocations (retry 3 10 failAlways 0).trace = 3 ∧
    (retry 3 10 failAlways 0).err = some (.queryFailed "timeout") := by
  have h := retry_exhausted 3 10 failAlways 0 (by decide)
    (by intro i _ _; simp [outcome, failAlways])
  refine ⟨by decide, h.1, h.2.1.trans ?_⟩
  simp [outcome, stateAfter, failAlways]

/-! ## Go maps -/

theorem lookup_of_mem {ν : Type} (m : GoMap ν) (k : String) (v : ν)
    (hnd : m.keys.Nodup) (hmem : (k, v) ∈ m) : m.get? k = some v := by
  induction m with
  | nil => cases hmem
  | cons e m ih =>
    obtain ⟨k', v'⟩ := e
    simp only [GoMap.keys, List.map_cons, List.nodup_cons] at hnd
    simp only [GoMap.get?, List.lookup]
    rcases List.mem_cons.mp hmem with h | h
    · cases h; simp
    · have hne : k ≠ k' := by
        rintro rfl
        exact hnd.1 (List.mem_map.mpr ⟨(k, v), h, rfl⟩)
      have : (k == k') = false := by simpa using hne
      rw [this]
      exact ih hnd.2 h

theorem mem_of_lookup {ν : Type} (m : GoMap ν) (k : String) (v : ν)
    (h : m.get? k = some v) : (k, v) ∈ m := by
  induction m with
  | nil => cases h
  | cons e m ih =>
    obtain ⟨k', v'⟩ := e
    simp only [GoMap.get?, List.lookup] at h
    by_cases hk : k = k'
    · subst hk
      simp at h
      subst h
      exact List.mem_cons_self _ _
    · have : (k == k') = false := by simpa using hk
      rw [this] at h
      exact List.mem_cons_of_mem _ (ih h)

theorem set_nodup {ν : Type} (m : GoMap ν) (k : String) (v : ν) (hnd : m.keys.Nodup) :
    (m.set k v).keys.Nodup := by
  simp only [GoMap.set, GoMap.keys, List.map_cons, List.nodup_cons]
  constructor
  · intro hmem
    obtain ⟨e, he, hek⟩ := List.mem_map.mp hmem
    have := (List.mem_filter.mp he).2
    simp at this
    exact this hek
  · exact hnd.sublist ((List.filter_sublist m).map Prod.fst)

theorem foldl_set_nodup (region : String) (vector : List Sample) :
    ∀ acc : GoMap Rat, acc.keys.Nodup →
      (vector.foldl (fun m sample =>
        m.set (regionKey region sample.instanceType) sample.Value) acc).keys.Nodup := by
  induction vector with
  | nil => intro acc h; exact h
  | cons s vector ih =>
    intro acc h
    exact ih _ (set_nodup acc _ _ h)

theorem vectorMap_nodup (region : String) (vector : List Sample) :
    (vectorMap region vector).keys.Nodup :=
  foldl_set_nodup region vector [] List.nodup_nil

/-- On a list with distinct keys, none of them already stored, the loop filling
`ratioMap` stores one entry per key that is not skipped. -/
theorem foldl_ratio (minMap : GoMap Rat) :
    ∀ (l : List (String × Rat)) (acc : GoMap Rat), (l.map Prod.fst).Nodup →
      (∀ e ∈ l, e.1 ∉ acc.keys) →
      l.foldl (fun ratioMap e =>
        match minMap.get? e.1 with
        | none => ratioMap
        | some minVal => if minVal ≤ 0 then ratioMap else ratioMap.set e.1 (fdiv e.2 minVal)) acc
      = (l.filterMap (ratioEntry minMap)).reverse ++ acc := by
  intro l
  induction l with
  | nil => intro acc _ _; rfl
  | cons e l ih =>
    intro acc hnd hacc
    simp only [List.map_cons, List.nodup_cons] at hnd
    have hacc' : ∀ e' ∈ l, e'.1 ∉ acc.keys := fun e' he' => hacc e' (List.mem_cons_of_mem _ he')
    rw [List.foldl_cons]
    cases hmin : minMap.get? e.1 with
    | none =>
      simp only [List.filterMap_cons, ratioEntry, hmin]
      exact ih acc hnd.2 hacc'
    | some minVal =>
      by_cases hle : minVal ≤ 0
      · simp only [List.filterMap_cons, ratioEntry, hmin, if_pos hle]
        exact ih acc hnd.2 hacc'
      · simp only [List.filterMap_cons, ratioEntry, hmin, if_neg hle]
        have hfilter : acc.filter (fun x => x.1 != e.1) = acc := by
          apply List.filter_eq_self.mpr
          intro x hx
          have : x.1 ≠ e.1 := by
            intro hxe
            exact hacc e (List.mem_cons_self _ _) (hxe ▸ List.mem_map.mpr ⟨x, hx, rfl⟩)
          simpa using this
        rw [GoMap.set, hfilter, ih _ hnd.2]
        · simp
        · intro e' he' hmem
          simp only [GoMap.keys, List.map_cons, List.mem_cons] at hmem
          rcases hmem with h | h
          · exact hnd.1 (h ▸ List.mem_map.mpr ⟨e', he', rfl⟩)
          · exact hacc' e' he' h

theorem ratioMapOf_perm (rangeMax : MapRange) (maxMap minMap : GoMap Rat)
    (hnd : maxMap.keys.Nodup) :
    (ratioMapOf rangeMax maxMap minMap).Perm (maxMap.filterMap (ratioEntry minMap)) := by
  have hp := rangeMax.perm maxMap
  have hnd' : ((rangeMax.order maxMap).map Prod.fst).Nodup :=
    (List.Perm.nodup_iff (hp.map Prod.fst)).mpr hnd
  rw [ratioMapOf, foldl_ratio minMap _ [] hnd' (by intro e _ h; cases h), List.append_nil]
  exact (List.reverse_perm _).trans (hp.filterMap _)

/-- The sorted slice `ratios` holds exactly the entries of the max map that are not
skipped, each with its ratio. -/
theorem sortedRatios_perm (sorter : SliceSorter) (rangeMax rangeRatio : MapRange)
    (region : String) (maxVector minVector : List Sample) :
    (sortedRatios sorter rangeMax rangeRatio region maxVector minVector).Perm
      (((vectorMap region maxVector).filterMap
        (ratioEntry (vectorMap region minVector))).map (fun e => kv.mk e.1 e.2)) := by
  simp only [sortedRatios]
  refine (sorter.perm _ _).trans (List.Perm.map _ ?_)
  exact (rangeRatio.perm _).trans (ratioMapOf_perm rangeMax _ _ (vectorMap_nodup region maxVector))

/-! ## Evaluation of the three rankings on the scenarios -/

theorem eval_zone_scenario :
    GetTop3CheapestAndMostExpensiveInstanceTypes insertionSorter (.vector scenarioVector) =
      .ok (["c5.large", "m5.large", "m5.xlarge"], ["m5.xlarge", "m5.large", "c5.large"]) := by
  simp [GetTop3CheapestAndMostExpensiveInstanceTypes, insertionSorter, insertionSort,
    scenarioVector, valueLess, List.insertionSort, List.orderedInsert]
  norm_num [Sample.instanceType, Metric.get, List.lookup]

theorem eval_volatility_scenario :
    GetTop3InstanceTypes insertionSorter storedOrder storedOrder "r"
      (.vector scenarioMax) (.vector scenarioMin) = .ok ["r:a"] := by
  simp [GetTop3InstanceTypes, sortedRatios, vectorMap, ratioMapOf, storedOrder, insertionSorter,
    insertionSort, GoMap.set, GoMap.get?, regionKey, Sample.instanceType, Metric.get,
    List.lookup, scenarioMax, scenarioMin]

theorem eval_saving_scenario :
    GetTop3HighestSavingInstance insertionSorter scenarioPrices (.vector scenarioVector) =
      .ok [["m5.xlarge", "use2-az1"], ["m5.large", "use2-az1"]] := by
  have hout : ((insertionSorter.run savingGreater
      (savingResults scenarioPrices scenarioVector)).take 3).map SavingResult.pair =
      [["m5.xlarge", "use2-az1"], ["m5.large", "use2-az1"]] := by decide!
  have hne : ¬ (savingResults scenarioPrices scenarioVector).length = 0 := by decide!
  simp only [GetTop3HighestSavingInstance, take_topN, hout]
  rw [if_neg (by decide), if_neg hne]

/-! ## Evaluation of the `float64` arithmetic -/

/-- The quotients of the scenarios are exact. -/
theorem fdiv_exact :
    fdiv 10 2 = 5 ∧ fdiv 8 2 = 4 ∧ fdiv 6 2 = 3 ∧ fdiv 4 2 = 2 ∧ fdiv 2 1 = 2 := by
  decide!

/-- Rounding makes ties: `1 - 2^-60` is rounded to 1, and the two different quotients
`2.3808 / 1.5872` and `23.808 / 15.872` of `float64` values are both rounded to 1.5. -/
theorem fdiv_ties :
    fsub 1 (1 / 1152921504606846976) = 1 ∧
    fdiv (2680542498210919 / 1125899906842624) (7148113328562451 / 4503599627370496) = 3 / 2 ∧
    fdiv (3350678122763649 / 140737488355328) (1116892707587883 / 70368744177664) = 3 / 2 ∧
    (2680542498210919 / 1125899906842624 : Rat) / (7148113328562451 / 4503599627370496) ≠
      (3350678122763649 / 140737488355328) / (1116892707587883 / 70368744177664) := by
  decide!

/-- An overflowing quotient is `+Inf`. -/
theorem fdiv_overflow : fdiv (pow2 1000) (pow2 (-1000)) = float64Inf := by
  decide!

theorem eval_ranked_sorted :
    sortedRatios insertionSorter storedOrder storedOrder "r" rankedMax rankedMin =
      [⟨"r:a", 5⟩, ⟨"r:c", 4⟩, ⟨"r:d", 3⟩, ⟨"r:e", 2⟩] := by
  decide!

theorem eval_saving_sorted :
    sortedSavings insertionSorter savingPrices savingVector =
      [⟨"d", "z2", 7 / 8⟩, ⟨"b", "z1", 3 / 4⟩, ⟨"a", "z1", 1 / 2⟩, ⟨"c", "z2", 1 / 4⟩] := by
  decide!

theorem eval_saving_ranked :
    GetTop3HighestSavingInstance insertionSorter savingPrices (.vector savingVector) =
      .ok [["d", "z2"], ["b", "z1"], ["a", "z1"]] := by
  have hne : ¬ (savingResults savingPrices savingVector).length = 0 := by decide!
  have hs := eval_saving_sorted
  rw [sortedSavings] at hs
  simp only [GetTop3HighestSavingInstance, take_topN, hs]
  rw [if_neg (by decide), if_neg hne]
  rfl

/-! ## Shape of a successful result -/

theorem zone_ok (sorter : SliceSorter) (result : QueryResult) (out : List String × List String)
    (h : GetTop3CheapestAndMostExpensiveInstanceTypes sorter result = .ok out) :
    result = .vector result.samples ∧ result.samples ≠ [] ∧
    out = (((sorter.run valueLess result.samples).take 3).map Sample.instanceType,
      ((sorter.run valueLess result.samples).reverse.take 3).map Sample.instanceType) := by
  cases result with
  | failed cause => simp [GetTop3CheapestAndMostExpensiveInstanceTypes] at h
  | notVector => simp [GetTop3CheapestAndMostExpensiveInstanceTypes] at h
  | vector v =>
    simp only [GetTop3CheapestAndMostExpensiveInstanceTypes] at h
    split at h
    · cases h
    · rename_i hlen
      refine ⟨rfl, fun h0 => hlen (by simp [QueryResult.samples] at h0; simp [h0]), ?_⟩
      cases h
      rfl

theorem volatility_ok (sorter : SliceSorter) (rangeMax rangeRatio : MapRange) (region : String)
    (maxResult minResult : QueryResult) (top3 : List String)
    (h : GetTop3InstanceTypes sorter rangeMax rangeRatio region maxResult minResult = .ok top3) :
    maxResult = .vector maxResult.samples ∧ minResult = .vector minResult.samples ∧
    top3 = ((sortedRatios sorter rangeMax rangeRatio region maxResult.samples
      minResult.samples).take 3).map kv.Key := by
  cases maxResult <;> cases minResult <;> simp only [GetTop3InstanceTypes] at h <;>
    try (cases h; done)
  refine ⟨rfl, rfl, ?_⟩
  cases h
  simp only [QueryResult.samples, take_topN]

theorem savingResults_eq (priceData : RegionalInstancePrice) (vector : List Sample) :
    savingResults priceData vector = vector.filterMap (savingOf priceData) := by
  have key : ∀ (l : List Sample) (acc : List SavingResult),
      l.foldl (fun results sample =>
        match savingOf priceData sample with
        | none => results
        | some r => results ++ [r]) acc = acc ++ l.filterMap (savingOf priceData) := by
    intro l
    induction l with
    | nil => intro acc; simp
    | cons s l ih =>
      intro acc
      rw [List.foldl_cons, ih, List.filterMap_cons]
      cases savingOf priceData s <;> simp
  rw [savingResults, key, List.nil_append]

theorem saving_ok (sorter : SliceSorter) (priceData : RegionalInstancePrice)
    (result : QueryResult) (out : List (List String))
    (h : GetTop3HighestSavingInstance sorter priceData result = .ok out) :
    result = .vector result.samples ∧ result.samples ≠ [] ∧
    savingResults priceData result.samples ≠ [] ∧
    out = ((sortedSavings sorter priceData result.samples).take 3).map SavingResult.pair := by
  cases result with
  | failed cause => simp [GetTop3HighestSavingInstance] at h
  | notVector => simp [GetTop3HighestSavingInstance] at h
  | vector v =>
    simp only [GetTop3HighestSavingInstance] at h
    split at h
    · cases h
    · rename_i hlen
      split at h
      · cases h
      · rename_i hres
        refine ⟨rfl, fun h0 => hlen (by simp [QueryResult.samples] at h0; simp [h0]),
          fun h0 => hres (by simp [QueryResult.samples] at h0; simp [h0]), ?_⟩
        cases h
        simp only [QueryResult.samples, take_topN, sortedSavings]

/-- The volatility ranking on two vectors always succeeds. -/
theorem volatility_vectors (sorter : SliceSorter) (rangeMax rangeRatio : MapRange)
    (region : String) (maxVector minVector : List Sample) :
    GetTop3InstanceTypes sorter rangeMax rangeRatio region (.vector maxVector)
      (.vector minVector) =
      .ok (((sortedRatios sorter rangeMax rangeRatio region maxVector minVector).take 3).map
        kv.Key) := by
  simp only [GetTop3InstanceTypes, take_topN]

/-! ## Contents of the sorted slices -/

theorem ratioEntry_some (minMap : GoMap Rat) (e r : String × Rat) :
    ratioEntry minMap e = some r ↔
      ∃ minVal, minMap.get? e.1 = some minVal ∧ 0 < minVal ∧ r = (e.1, fdiv e.2 minVal) := by
  unfold ratioEntry
  cases hmin : minMap.get? e.1 with
  | none => simp
  | some minVal =>
    by_cases hle : minVal ≤ 0
    · simp [hle, not_lt.mpr hle]
    · simp [hle, not_le.mp hle, eq_comm]

theorem filterMap_ratio_keys (minMap : GoMap Rat) (m : GoMap Rat) :
    (m.filterMap (ratioEntry minMap)).map Prod.fst = m.keys.filter (eligibleKey minMap) := by
  induction m with
  | nil => rfl
  | cons e m ih =>
    simp only [GoMap.keys, List.map_cons, List.filterMap_cons, List.filter_cons] at ih ⊢
    unfold ratioEntry eligibleKey
    cases hmin : minMap.get? e.1 with
    | none => simpa using ih
    | some minVal =>
      by_cases hle : minVal ≤ 0
      · simpa [hle, not_lt.mpr hle] using ih
      · simpa [hle, not_le.mp hle] using ih

theorem sortedRatios_keys (sorter : SliceSorter) (rangeMax rangeRatio : MapRange)
    (region : String) (maxVector minVector : List Sample) :
    ((sortedRatios sorter rangeMax rangeRatio region maxVector minVector).map kv.Key).Perm
      ((vectorMap region maxVector).keys.filter (eligibleKey (vectorMap region minVector))) := by
  have h := (sortedRatios_perm sorter rangeMax rangeRatio region maxVector minVector).map kv.Key
  rw [← filterMap_ratio_keys]
  simpa [List.map_map, Function.comp_def] using h

theorem sortedRatios_keys_nodup (sorter : SliceSorter) (rangeMax rangeRatio : MapRange)
    (region : String) (maxVector minVector : List Sample) :
    ((sortedRatios sorter rangeMax rangeRatio region maxVector minVector).map kv.Key).Nodup :=
  (List.Perm.nodup_iff
    (sortedRatios_keys sorter rangeMax rangeRatio region maxVector minVector)).mpr
    ((vectorMap_nodup region maxVector).filter _)

theorem sortedRatios_length (sorter : SliceSorter) (rangeMax rangeRatio : MapRange)
    (region : String) (maxVector minVector : List Sample) :
    (sortedRatios sorter rangeMax rangeRatio region maxVector minVector).length =
      (eligibleKeys (vectorMap region maxVector) (vectorMap region minVector)).card := by
  have h := (sortedRatios_keys sorter rangeMax rangeRatio region maxVector minVector).length_eq
  rw [List.length_map] at h
  rw [h, eligibleKeys, ← List.toFinset_filter,
    List.toFinset_card_of_nodup ((vectorMap_nodup region maxVector).filter _)]

/-- An entry of the sorted slice `ratios` is a key of both maps with a positive min,
and carries the quotient of the two values. -/
theorem mem_sortedRatios (sorter : SliceSorter) (rangeMax rangeRatio : MapRange)
    (region : String) (maxVector minVector : List Sample) (x : kv) :
    x ∈ sortedRatios sorter rangeMax rangeRatio region maxVector minVector ↔
      ∃ maxVal minVal, (vectorMap region maxVector).get? x.Key = some maxVal ∧
        (vectorMap region minVector).get? x.Key = some minVal ∧ 0 < minVal ∧
        x.Ratio = fdiv maxVal minVal := by
  rw [(sortedRatios_perm sorter rangeMax rangeRatio region maxVector minVector).mem_iff]
  simp only [List.mem_map, List.mem_filterMap]
  constructor
  · rintro ⟨r, ⟨e, he, hr⟩, rfl⟩
    obtain ⟨minVal, hmin, hpos, rfl⟩ := (ratioEntry_some _ e r).mp hr
    exact ⟨e.2, minVal, lookup_of_mem _ e.1 e.2 (vectorMap_nodup region maxVector) he,
      hmin, hpos, rfl⟩
  · rintro ⟨maxVal, minVal, hmax, hmin, hpos, hx⟩
    refine ⟨(x.Key, x.Ratio), ⟨(x.Key, maxVal), mem_of_lookup _ _ _ hmax, ?_⟩, rfl⟩
    exact (ratioEntry_some _ _ _).mpr ⟨minVal, hmin, hpos, by rw [hx]⟩

theorem savingOf_eq (priceData : RegionalInstancePrice) (sample : Sample) :
    savingOf priceData sample =
      match priceData.InstanceTypePrices.get? sample.instanceType with
      | none => none
      | some data =>
        if data.OnDemandPricePerHour ≤ 0 then none
        else some ⟨sample.instanceType, sample.zone,
          fdiv (fsub data.OnDemandPricePerHour sample.Value) data.OnDemandPricePerHour⟩ := by
  simp only [savingOf, GetOnDemandPrice]
  cases priceData.InstanceTypePrices.get? sample.instanceType <;> rfl

theorem savingOf_some (priceData : RegionalInstancePrice) (sample : Sample) (r : SavingResult) :
    savingOf priceData sample = some r ↔
      ∃ data, priceData.InstanceTypePrices.get? sample.instanceType = some data ∧
        0 < data.OnDemandPricePerHour ∧
        r = ⟨sample.instanceType, sample.zone,
          fdiv (fsub data.OnDemandPricePerHour sample.Value) data.OnDemandPricePerHour⟩ := by
  rw [savingOf_eq]
  cases hget : priceData.InstanceTypePrices.get? sample.instanceType with
  | none => simp
  | some data =>
    by_cases hle : data.OnDemandPricePerHour ≤ 0
    · simp [hle, not_lt.mpr hle]
    · simp [hle, not_le.mp hle, eq_comm]

theorem savingOf_isSome (priceData : RegionalInstancePrice) (sample : Sample) :
    (savingOf priceData sample).isSome = eligibleSample priceData sample := by
  rw [savingOf_eq]
  unfold eligibleSample
  cases hget : priceData.InstanceTypePrices.get? sample.instanceType with
  | none => rfl
  | some data =>
    by_cases hle : data.OnDemandPricePerHour ≤ 0
    · simp [hle, not_lt.mpr hle]
    · simp [hle, not_le.mp hle]

theorem savingResults_length (priceData : RegionalInstancePrice) (vector : List Sample) :
    (savingResults priceData vector).length =
      (vector.filter (eligibleSample priceData)).length := by
  rw [savingResults_eq]
  induction vector with
  | nil => rfl
  | cons s vector ih =>
    have h := savingOf_isSome priceData s
    rw [List.filterMap_cons, List.filter_cons]
    cases hs : savingOf priceData s with
    | none =>
      rw [hs] at h
      simp only [Option.isSome_none] at h
      simp [← h, ih]
    | some r =>
      rw [hs] at h
      simp only [Option.isSome_some] at h
      simp [← h, ih]

theorem sortedSavings_perm (sorter : SliceSorter) (priceData : RegionalInstancePrice)
    (vector : List Sample) :
    (sortedSavings sorter priceData vector).Perm (vector.filterMap (savingOf priceData)) := by
  rw [sortedSavings, savingResults_eq]
  exact sorter.perm _ _

/-! ## C4 -/

/-- C4: every list a ranking operation returns on success has length `min 3 e`, with
`e` the number of samples (zone ranking), the number of keys of the max map whose min
value exists and is positive (volatility ranking), the number of samples whose instance
type is priced above 0 in the catalog (highest saving ranking); a zone vector of 1 or 2
samples gives two lists of that size and no error. -/
theorem top3_lengths (sorter : SliceSorter) (rangeMax rangeRatio : MapRange) (region : String)
    (priceData : RegionalInstancePrice) (zoneResult maxResult minResult regionResult : QueryResult) :
    (∀ cheapest expensive,
      GetTop3CheapestAndMostExpensiveInstanceTypes sorter zoneResult = .ok (cheapest, expensive) →
      cheapest.length = min 3 zoneResult.samples.length ∧
      expensive.length = min 3 zoneResult.samples.length) ∧
    (∀ top3,
      GetTop3InstanceTypes sorter rangeMax rangeRatio region maxResult minResult = .ok top3 →
      top3.length = min 3 (eligibleKeys (vectorMap region maxResult.samples)
        (vectorMap region minResult.samples)).card) ∧
    (∀ out,
      GetTop3HighestSavingInstance sorter priceData regionResult = .ok out →
      out.length = min 3 (regionResult.samples.filter (eligibleSample priceData)).length ∧
      ∀ entry ∈ out, entry.length = 2) ∧
    (∀ vector : List Sample, vector.length = 1 ∨ vector.length = 2 →
      ∃ cheapest expensive,
        GetTop3CheapestAndMostExpensiveInstanceTypes sorter (.vector vector) =
          .ok (cheapest, expensive) ∧
        cheapest.length = vector.length ∧ expensive.length = vector.length) := by
  refine ⟨?_, ?_, ?_, ?_⟩
  · intro cheapest expensive h
    obtain ⟨_, _, hout⟩ := zone_ok sorter zoneResult _ h
    cases hout
    simp [length_run]
  · intro top3 h
    obtain ⟨_, _, hout⟩ := volatility_ok sorter rangeMax rangeRatio region _ _ _ h
    rw [hout, List.length_map, List.length_take, sortedRatios_length]
  · intro out h
    obtain ⟨_, _, _, hout⟩ := saving_ok sorter priceData _ _ h
    constructor
    · rw [hout, List.length_map, List.length_take, sortedSavings, length_run,
        savingResults_length]
    · intro entry he
      rw [hout] at he
      obtain ⟨r, _, rfl⟩ := List.mem_map.mp he
      rfl
  · intro vector hlen
    have hne : vector ≠ [] := by
      intro h0; rw [h0] at hlen; simp at hlen
    have h0 : ¬ vector.length = 0 := by omega
    refine ⟨((sorter.run valueLess vector).take 3).map Sample.instanceType,
      ((sorter.run valueLess vector).reverse.take 3).map Sample.instanceType,
      by simp only [GetTop3CheapestAndMostExpensiveInstanceTypes, if_neg h0], ?_, ?_⟩
    · simp only [List.length_map, List.length_take, length_run]; omega
    · simp only [List.length_map, List.length_take, List.length_reverse, length_run]; omega

/-- C4 on the scenarios: 3 zone samples give two lists of 3, one eligible key gives one
key, two priced samples give two pairs, and a zone vector of 2 samples gives lists of 2. -/
theorem top3_lengths_witness :
    (["c5.large", "m5.large", "m5.xlarge"].length = min 3 scenarioVector.length ∧
      ["m5.xlarge", "m5.large", "c5.large"].length = min 3 scenarioVector.length) ∧
    ["r:a"].length = min 3 (eligibleKeys (vectorMap "r" scenarioMax)
      (vectorMap "r" scenarioMin)).card ∧
    [["m5.xlarge", "use2-az1"], ["m5.large", "use2-az1"]].length =
      min 3 (scenarioVector.filter (eligibleSample scenarioPrices)).length ∧
    ∃ cheapest expensive,
      GetTop3CheapestAndMostExpensiveInstanceTypes insertionSorter (.vector scenarioMax) =
        .ok (cheapest, expensive) ∧
      cheapest.length = 2 ∧ expensive.length = 2 := by
  have h := top3_lengths insertionSorter storedOrder storedOrder "r" scenarioPrices
    (.vector scenarioVector) (.vector scenarioMax) (.vector scenarioMin) (.vector scenarioVector)
  exact ⟨h.1 _ _ eval_zone_scenario, h.2.1 _ eval_volatility_scenario,
    (h.2.2.1 _ eval_saving_scenario).1, h.2.2.2 scenarioMax (Or.inr rfl)⟩

/-! ## Order of the sorted slices -/

/-- In a list ordered by `R`, each of the first `n` elements is related to each of the
others. -/
theorem take_drop_rel {α : Type} (R : α → α → Prop) (l : List α) (n : Nat)
    (h : l.Pairwise R) : ∀ a ∈ l.take n, ∀ b ∈ l.drop n, R a b := by
  have h' : (l.take n ++ l.drop n).Pairwise R := by rwa [List.take_append_drop]
  exact (List.pairwise_append.mp h').2.2

theorem mem_take_or_drop {α : Type} (l : List α) (n : Nat) (a : α) (h : a ∈ l) :
    a ∈ l.take n ∨ a ∈ l.drop n := by
  rw [← List.take_append_drop n l] at h
  exact List.mem_append.mp h

theorem sortedRatios_sorted (sorter : SliceSorter) (rangeMax rangeRatio : MapRange)
    (region : String) (maxVector minVector : List Sample) :
    (sortedRatios sorter rangeMax rangeRatio region maxVector minVector).Pairwise
      (fun a b => b.Ratio ≤ a.Ratio) := by
  simp only [sortedRatios]
  exact sorted_by_ratio sorter _

theorem ratioOf_of_mem (sorter : SliceSorter) (rangeMax rangeRatio : MapRange)
    (region : String) (maxVector minVector : List Sample) (x : kv)
    (hx : x ∈ sortedRatios sorter rangeMax rangeRatio region maxVector minVector) :
    ratioOf (vectorMap region maxVector) (vectorMap region minVector) x.Key = some x.Ratio := by
  obtain ⟨maxVal, minVal, hmax, hmin, _, hr⟩ :=
    (mem_sortedRatios sorter rangeMax rangeRatio region maxVector minVector x).mp hx
  simp only [ratioOf, hmax, hmin, hr]

/-! ## C5 -/

/-- C5: every key returned by the volatility ranking is a key of the max map and of the
min map, and its min value is strictly positive. -/
theorem volatility_keys_positive_min (sorter : SliceSorter) (rangeMax rangeRatio : MapRange)
    (region : String) (maxResult minResult : QueryResult) (top3 : List String)
    (h : GetTop3InstanceTypes sorter rangeMax rangeRatio region maxResult minResult = .ok top3) :
    ∀ key ∈ top3, ∃ maxVal minVal,
      (vectorMap region maxResult.samples).get? key = some maxVal ∧
      (vectorMap region minResult.samples).get? key = some minVal ∧ 0 < minVal := by
  obtain ⟨_, _, hout⟩ := volatility_ok sorter rangeMax rangeRatio region _ _ _ h
  intro key hkey
  rw [hout] at hkey
  obtain ⟨x, hx, rfl⟩ := List.mem_map.mp hkey
  obtain ⟨maxVal, minVal, hmax, hmin, hpos, _⟩ :=
    (mem_sortedRatios sorter rangeMax rangeRatio region _ _ x).mp (List.mem_of_mem_take hx)
  exact ⟨maxVal, minVal, hmax, hmin, hpos⟩

/-- C5 on the scenario: the one returned key `r:a` has max 10 and min 2. -/
theorem volatility_keys_positive_min_witness :
    GetTop3InstanceTypes insertionSorter storedOrder storedOrder "r"
      (.vector scenarioMax) (.vector scenarioMin) = .ok ["r:a"] ∧
    ∀ key ∈ ["r:a"], ∃ maxVal minVal,
      (vectorMap "r" scenarioMax).get? key = some maxVal ∧
      (vectorMap "r" scenarioMin).get? key = some minVal ∧ 0 < minVal :=
  ⟨eval_volatility_scenario,
    volatility_keys_positive_min insertionSorter storedOrder storedOrder "r"
      (.vector scenarioMax) (.vector scenarioMin) ["r:a"] eval_volatility_scenario⟩

/-! ## C6 -/

theorem eval_ranked :
    GetTop3InstanceTypes insertionSorter storedOrder storedOrder "r"
      (.vector rankedMax) (.vector rankedMin) = .ok ["r:a", "r:c", "r:d"] := by
  rw [volatility_vectors, eval_ranked_sorted]
  rfl

/-- C6: the volatility ranking returns `min 3 e` of the `e` eligible keys of the max
map, listed in non-increasing order of the ratio `max/min` that the code computes, and
every eligible key that is not returned has a ratio at most the ratio of each returned
key. -/
theorem volatility_top_ratios (sorter : SliceSorter) (rangeMax rangeRatio : MapRange)
    (region : String) (maxResult minResult : QueryResult) (top3 : List String)
    (h : GetTop3InstanceTypes sorter rangeMax rangeRatio region maxResult minResult = .ok top3) :
    top3.length = min 3 (eligibleKeys (vectorMap region maxResult.samples)
      (vectorMap region minResult.samples)).card ∧
    (∀ key ∈ top3, key ∈ (vectorMap region maxResult.samples).keys ∧
      eligibleKey (vectorMap region minResult.samples) key = true) ∧
    top3.Pairwise (fun a b => ∃ ra rb,
      ratioOf (vectorMap region maxResult.samples) (vectorMap region minResult.samples) a
        = some ra ∧
      ratioOf (vectorMap region maxResult.samples) (vectorMap region minResult.samples) b
        = some rb ∧ rb ≤ ra) ∧
    ∀ key ∈ (vectorMap region maxResult.samples).keys,
      eligibleKey (vectorMap region minResult.samples) key = true → key ∉ top3 →
      ∀ t ∈ top3, ∃ rk rt,
        ratioOf (vectorMap region maxResult.samples) (vectorMap region minResult.samples) key
          = some rk ∧
        ratioOf (vectorMap region maxResult.samples) (vectorMap region minResult.samples) t
          = some rt ∧ rk ≤ rt := by
  obtain ⟨_, _, hout⟩ := volatility_ok sorter rangeMax rangeRatio region _ _ _ h
  have hsorted := sortedRatios_sorted sorter rangeMax rangeRatio region
    maxResult.samples minResult.samples
  have hratio := ratioOf_of_mem sorter rangeMax rangeRatio region
    maxResult.samples minResult.samples
  have hkeys := sortedRatios_keys sorter rangeMax rangeRatio region
    maxResult.samples minResult.samples
  refine ⟨?_, ?_, ?_, ?_⟩
  · rw [hout, List.length_map, List.length_take, sortedRatios_length]
  · intro key hkey
    rw [hout] at hkey
    obtain ⟨x, hx, rfl⟩ := List.mem_map.mp hkey
    have hmem : x.Key ∈ (sortedRatios sorter rangeMax rangeRatio region maxResult.samples
        minResult.samples).map kv.Key := List.mem_map.mpr ⟨x, List.mem_of_mem_take hx, rfl⟩
    rw [hkeys.mem_iff] at hmem
    exact ⟨(List.mem_filter.mp hmem).1, (List.mem_filter.mp hmem).2⟩
  · rw [hout, List.pairwise_map]
    refine List.Pairwise.imp_of_mem ?_ (hsorted.sublist (List.take_sublist 3 _))
    intro a b ha hb hab
    exact ⟨a.Ratio, b.Ratio, hratio a (List.mem_of_mem_take ha),
      hratio b (List.mem_of_mem_take hb), hab⟩
  · intro key hkey helig hnot t ht
    have hmem : key ∈ (sortedRatios sorter rangeMax rangeRatio region maxResult.samples
        minResult.samples).map kv.Key := by
      rw [hkeys.mem_iff]
      exact List.mem_filter.mpr ⟨hkey, helig⟩
    obtain ⟨x, hx, rfl⟩ := List.mem_map.mp hmem
    rw [hout] at hnot ht
    obtain ⟨y, hy, rfl⟩ := List.mem_map.mp ht
    have hxdrop : x ∈ (sortedRatios sorter rangeMax rangeRatio region maxResult.samples
        minResult.samples).drop 3 := by
      rcases mem_take_or_drop _ 3 x hx with h1 | h1
      · exact absurd (List.mem_map.mpr ⟨x, h1, rfl⟩) hnot
      · exact h1
    exact ⟨x.Ratio, y.Ratio, hratio x hx, hratio y (List.mem_of_mem_take hy),
      take_drop_rel _ _ 3 hsorted y hy x hxdrop⟩

/-- C6 on two inputs.  The scenario of the specification, max map `r:a ↦ 10, r:b ↦ 4`
and min map `r:a ↦ 2, r:b ↦ 0`, gives exactly `[r:a]`, whose ratio is 5.  With the four
eligible keys `r:a`, `r:c`, `r:d`, `r:e` of ratios 5, 4, 3, 2 (and `r:b`, `r:f` not
eligible) the result is `[r:a, r:c, r:d]`, in non-increasing order of ratio, and the
ratio 2 of the key `r:e` that is left out is at most each of their ratios. -/
theorem volatility_top_ratios_witness :
    (GetTop3InstanceTypes insertionSorter storedOrder storedOrder "r"
        (.vector scenarioMax) (.vector scenarioMin) = .ok ["r:a"] ∧
      ratioOf (vectorMap "r" scenarioMax) (vectorMap "r" scenarioMin) "r:a" = some 5 ∧
      eligibleKey (vectorMap "r" scenarioMin) "r:b" = false) ∧
    (GetTop3InstanceTypes insertionSorter storedOrder storedOrder "r"
        (.vector rankedMax) (.vector rankedMin) = .ok ["r:a", "r:c", "r:d"] ∧
      ["r:a", "r:c", "r:d"].length =
        min 3 (eligibleKeys (vectorMap "r" rankedMax) (vectorMap "r" rankedMin)).card ∧
      ["r:a", "r:c", "r:d", "r:e"].map (ratioOf (vectorMap "r" rankedMax)
        (vectorMap "r" rankedMin)) = [some 5, some 4, some 3, some 2] ∧
      ["r:a", "r:c", "r:d"].Pairwise (fun a b => ∃ ra rb,
        ratioOf (vectorMap "r" rankedMax) (vectorMap "r" rankedMin) a = some ra ∧
        ratioOf (vectorMap "r" rankedMax) (vectorMap "r" rankedMin) b = some rb ∧ rb ≤ ra) ∧
      ∀ t ∈ ["r:a", "r:c", "r:d"], ∃ rk rt,
        ratioOf (vectorMap "r" rankedMax) (vectorMap "r" rankedMin) "r:e" = some rk ∧
        ratioOf (vectorMap "r" rankedMax) (vectorMap "r" rankedMin) t = some rt ∧
        rk ≤ rt) := by
  have h := volatility_top_ratios insertionSorter storedOrder storedOrder "r"
    (.vector rankedMax) (.vector rankedMin) ["r:a", "r:c", "r:d"] eval_ranked
  exact ⟨⟨eval_volatility_scenario, by decide!, by decide!⟩,
    eval_ranked, h.1, by decide!, h.2.2.1,
    h.2.2.2 "r:e" (by decide!) (by decide!) (by decide)⟩

/-! ## Highest saving ranking -/

theorem sortedSavings_sorted (sorter : SliceSorter) (priceData : RegionalInstancePrice)
    (vector : List Sample) :
    (sortedSavings sorter priceData vector).Pairwise
      (fun a b => b.SavingRatio ≤ a.SavingRatio) :=
  sorted_by_saving sorter _

theorem mem_sortedSavings (sorter : SliceSorter) (priceData : RegionalInstancePrice)
    (vector : List Sample) (r : SavingResult) :
    r ∈ sortedSavings sorter priceData vector ↔
      ∃ sample ∈ vector, savingOf priceData sample = some r := by
  rw [(sortedSavings_perm sorter priceData vector).mem_iff, List.mem_filterMap]

theorem eligible_of_savingOf (priceData : RegionalInstancePrice) (sample : Sample)
    (r : SavingResult) (h : savingOf priceData sample = some r) :
    eligibleSample priceData sample = true := by
  rw [← savingOf_isSome, h]; rfl

theorem savingOf_of_not_eligible (priceData : RegionalInstancePrice) (sample : Sample)
    (h : eligibleSample priceData sample = false) : savingOf priceData sample = none := by
  have := savingOf_isSome priceData sample
  rw [h] at this
  cases hs : savingOf priceData sample with
  | none => rfl
  | some r => rw [hs] at this; cases this

/-- Eligibility is decided by the instance type alone. -/
theorem eligible_congr (priceData : RegionalInstancePrice) (a b : Sample)
    (h : a.instanceType = b.instanceType) :
    eligibleSample priceData a = eligibleSample priceData b := by
  simp only [eligibleSample, h]

theorem savingResults_filter (priceData : RegionalInstancePrice) (vector : List Sample) :
    savingResults priceData (vector.filter (eligibleSample priceData)) =
      savingResults priceData vector := by
  rw [savingResults_eq, savingResults_eq]
  induction vector with
  | nil => rfl
  | cons s vector ih =>
    rw [List.filter_cons]
    cases hs : eligibleSample priceData s with
    | false =>
      simp only [Bool.false_eq_true, if_false, List.filterMap_cons,
        savingOf_of_not_eligible priceData s hs]
      exact ih
    | true =>
      simp only [if_true, List.filterMap_cons]
      rw [ih]

theorem savingResults_ne_nil (priceData : RegionalInstancePrice) (vector : List Sample)
    (h : ∃ sample ∈ vector, eligibleSample priceData sample = true) :
    savingResults priceData vector ≠ [] := by
  obtain ⟨sample, hmem, helig⟩ := h
  intro h0
  have hlen := savingResults_length priceData vector
  rw [h0] at hlen
  have : sample ∈ vector.filter (eligibleSample priceData) := List.mem_filter.mpr ⟨hmem, helig⟩
  rw [List.eq_nil_of_length_eq_zero hlen.symm] at this
  cases this

theorem savingResults_eq_nil (priceData : RegionalInstancePrice) (vector : List Sample)
    (h : ∀ sample ∈ vector, eligibleSample priceData sample = false) :
    savingResults priceData vector = [] := by
  apply List.eq_nil_of_length_eq_zero
  rw [savingResults_length, List.length_eq_zero, List.filter_eq_nil_iff]
  intro s hs
  rw [h s hs]
  exact Bool.false_ne_true

/-- The highest saving ranking on a vector, by the two emptiness tests of the source. -/
theorem saving_vector (sorter : SliceSorter) (priceData : RegionalInstancePrice)
    (vector : List Sample) :
    GetTop3HighestSavingInstance sorter priceData (.vector vector) =
      if vector = [] then .error .noDataFound
      else if savingResults priceData vector = [] then .error .noValidInstance
      else .ok (((sortedSavings sorter priceData vector).take 3).map SavingResult.pair) := by
  simp only [GetTop3HighestSavingInstance, List.length_eq_zero, take_topN, sortedSavings]

/-! ## C7 -/

theorem eval_saving_rounding :
    GetTop3HighestSavingInstance goSorter roundingPrices (.vector roundingVector) =
      .ok [["a", "z"], ["b", "z"]] := by
  have hout : ((goSorter.run savingGreater
      (savingResults roundingPrices roundingVector)).take 3).map SavingResult.pair =
      [["a", "z"], ["b", "z"]] := by decide!
  have hne : ¬ (savingResults roundingPrices roundingVector).length = 0 := by decide!
  simp only [GetTop3HighestSavingInstance, take_topN, hout]
  rw [if_neg (by decide), if_neg hne]

/-- C7: on success the highest saving ranking returns the pairs of the first three
entries of its sorted slice `results`; each entry was computed from an input sample as
the `float64` value of `(od - spot) / od`, with `od > 0` the catalog price of its
instance type, and the saving ratios of these entries are non-increasing. -/
theorem saving_nonincreasing (sorter : SliceSorter) (priceData : RegionalInstancePrice)
    (result : QueryResult) (out : List (List String))
    (h : GetTop3HighestSavingInstance sorter priceData result = .ok out) :
    out = ((sortedSavings sorter priceData result.samples).take 3).map SavingResult.pair ∧
    ((sortedSavings sorter priceData result.samples).take 3).Pairwise
      (fun a b => b.SavingRatio ≤ a.SavingRatio) ∧
    ∀ r ∈ (sortedSavings sorter priceData result.samples).take 3,
      ∃ sample ∈ result.samples, ∃ data,
        priceData.InstanceTypePrices.get? sample.instanceType = some data ∧
        0 < data.OnDemandPricePerHour ∧
        r = ⟨sample.instanceType, sample.zone,
          fdiv (fsub data.OnDemandPricePerHour sample.Value) data.OnDemandPricePerHour⟩ := by
  obtain ⟨_, _, _, hout⟩ := saving_ok sorter priceData _ _ h
  refine ⟨hout,
    (sortedSavings_sorted sorter priceData _).sublist (List.take_sublist 3 _), ?_⟩
  intro r hr
  obtain ⟨sample, hmem, hs⟩ :=
    (mem_sortedSavings sorter priceData _ r).mp (List.mem_of_mem_take hr)
  exact ⟨sample, hmem, (savingOf_some priceData sample r).mp hs⟩

/-- C7 on four priced samples with the savings 1/2, 3/4, 1/4 and 7/8: the three pairs
returned have the savings 7/8, 3/4, 1/2, in this order.  With the spot prices `2^-60`
and 0 under the catalog price 1 both savings are 1 in `float64`, and the two pairs come
out in the order of the query. -/
theorem saving_nonincreasing_witness :
    GetTop3HighestSavingInstance insertionSorter savingPrices (.vector savingVector) =
      .ok [["d", "z2"], ["b", "z1"], ["a", "z1"]] ∧
    (sortedSavings insertionSorter savingPrices savingVector).take 3 =
      [⟨"d", "z2", 7 / 8⟩, ⟨"b", "z1", 3 / 4⟩, ⟨"a", "z1", 1 / 2⟩] ∧
    ((sortedSavings insertionSorter savingPrices savingVector).take 3).Pairwise
      (fun a b => b.SavingRatio ≤ a.SavingRatio) ∧
    GetTop3HighestSavingInstance goSorter roundingPrices (.vector roundingVector) =
      .ok [["a", "z"], ["b", "z"]] :=
  ⟨eval_saving_ranked, by rw [eval_saving_sorted]; rfl,
    (saving_nonincreasing insertionSorter savingPrices (.vector savingVector) _
      eval_saving_ranked).2.1,
    eval_saving_rounding⟩

/-! ## C8 -/

/-- C8: every pair returned by the highest saving ranking is the pair of an input sample
whose instance type is priced above 0 in the catalog; a sample that is not eligible is
skipped, its pair is never returned, and as long as one sample is eligible the call
succeeds with the result it gives on the eligible samples alone. -/
theorem saving_skips_ineligible (sorter : SliceSorter) (priceData : RegionalInstancePrice)
    (vector : List Sample) :
    (∀ out, GetTop3HighestSavingInstance sorter priceData (.vector vector) = .ok out →
      (∀ p ∈ out, ∃ sample ∈ vector, eligibleSample priceData sample = true ∧
        p = [sample.instanceType, sample.zone]) ∧
      (∀ sample ∈ vector, eligibleSample priceData sample = false →
        [sample.instanceType, sample.zone] ∉ out)) ∧
    (∀ sample, eligibleSample priceData sample = false → savingOf priceData sample = none) ∧
    ((∃ sample ∈ vector, eligibleSample priceData sample = true) →
      ∃ out, GetTop3HighestSavingInstance sorter priceData (.vector vector) = .ok out ∧
        GetTop3HighestSavingInstance sorter priceData
          (.vector (vector.filter (eligibleSample priceData))) = .ok out) := by
  have hpairs : ∀ out, GetTop3HighestSavingInstance sorter priceData (.vector vector) = .ok out →
      ∀ p ∈ out, ∃ sample ∈ vector, eligibleSample priceData sample = true ∧
        p = [sample.instanceType, sample.zone] := by
    intro out h p hp
    obtain ⟨_, _, _, hout⟩ := saving_ok sorter priceData _ _ h
    rw [hout] at hp
    obtain ⟨r, hr, rfl⟩ := List.mem_map.mp hp
    obtain ⟨sample, hmem, hs⟩ :=
      (mem_sortedSavings sorter priceData _ r).mp (List.mem_of_mem_take hr)
    refine ⟨sample, hmem, eligible_of_savingOf priceData sample r hs, ?_⟩
    obtain ⟨data, _, _, rfl⟩ := (savingOf_some priceData sample r).mp hs
    rfl
  refine ⟨fun out h => ⟨hpairs out h, ?_⟩, savingOf_of_not_eligible priceData, ?_⟩
  · intro sample _ hnot hmem
    obtain ⟨s', _, helig, heq⟩ := hpairs out h _ hmem
    have hit : sample.instanceType = s'.instanceType := by
      have := congrArg List.head? heq
      simpa using this
    rw [eligible_congr priceData sample s' hit, helig] at hnot
    cases hnot
  · intro hex
    have hne : vector ≠ [] := by
      obtain ⟨s, hs, _⟩ := hex
      intro h0; rw [h0] at hs; cases hs
    have hres := savingResults_ne_nil priceData vector hex
    have hne' : vector.filter (eligibleSample priceData) ≠ [] := by
      obtain ⟨s, hs, he⟩ := hex
      intro h0
      have : s ∈ vector.filter (eligibleSample priceData) := List.mem_filter.mpr ⟨hs, he⟩
      rw [h0] at this; cases this
    refine ⟨((sortedSavings sorter priceData vector).take 3).map SavingResult.pair, ?_, ?_⟩
    · rw [saving_vector, if_neg hne, if_neg hres]
    · rw [saving_vector, if_neg hne', savingResults_filter, if_neg hres, sortedSavings,
        savingResults_filter, sortedSavings]

/-- C8 on the scenario: `c5.large` is not in the price table, the call succeeds and its
pair is not returned. -/
theorem saving_skips_ineligible_witness :
    (∃ sample ∈ scenarioVector, eligibleSample scenarioPrices sample = true) ∧
    ∃ out, GetTop3HighestSavingInstance insertionSorter scenarioPrices
        (.vector scenarioVector) = .ok out ∧
      GetTop3HighestSavingInstance insertionSorter scenarioPrices
        (.vector (scenarioVector.filter (eligibleSample scenarioPrices))) = .ok out := by
  have hex : ∃ sample ∈ scenarioVector, eligibleSample scenarioPrices sample = true := by
    refine ⟨⟨[("instance_type", "m5.large"), ("zone", "use2-az1")], 0.05⟩, ?_, ?_⟩
    · simp [scenarioVector]
    · simp [eligibleSample, scenarioPrices, GoMap.get?, Sample.instanceType, Metric.get,
        List.lookup]
      norm_num
  exact ⟨hex, (saving_skips_ineligible insertionSorter scenarioPrices scenarioVector).2.2 hex⟩

/-! ## C9 -/

/-- C9: on success the sorted slice `results` holds one entry for each eligible sample;
its first three entries are the ones returned, and every other entry has a saving ratio
at most the saving ratio of each returned entry: an eligible sample whose entry is not
among the returned ones has a saving ratio at most that of every returned entry. -/
theorem saving_top (sorter : SliceSorter) (priceData : RegionalInstancePrice)
    (result : QueryResult) (out : List (List String))
    (h : GetTop3HighestSavingInstance sorter priceData result = .ok out) :
    out = ((sortedSavings sorter priceData result.samples).take 3).map SavingResult.pair ∧
    (sortedSavings sorter priceData result.samples).Perm
      (result.samples.filterMap (savingOf priceData)) ∧
    (sortedSavings sorter priceData result.samples).length =
      (result.samples.filter (eligibleSample priceData)).length ∧
    (∀ a ∈ (sortedSavings sorter priceData result.samples).take 3,
      ∀ b ∈ (sortedSavings sorter priceData result.samples).drop 3,
        b.SavingRatio ≤ a.SavingRatio) ∧
    ∀ sample ∈ result.samples, ∀ r, savingOf priceData sample = some r →
      r ∉ (sortedSavings sorter priceData result.samples).take 3 →
      ∀ a ∈ (sortedSavings sorter priceData result.samples).take 3,
        r.SavingRatio ≤ a.SavingRatio := by
  obtain ⟨_, _, _, hout⟩ := saving_ok sorter priceData _ _ h
  have hrel := take_drop_rel _ _ 3 (sortedSavings_sorted sorter priceData result.samples)
  refine ⟨hout, sortedSavings_perm sorter priceData _, ?_, hrel, ?_⟩
  · rw [sortedSavings, length_run, savingResults_length]
  · intro sample hmem r hr hnot a ha
    have hin : r ∈ sortedSavings sorter priceData result.samples :=
      (mem_sortedSavings sorter priceData _ r).mpr ⟨sample, hmem, hr⟩
    rcases mem_take_or_drop _ 3 r hin with h1 | h1
    · exact absurd h1 hnot
    · exact hrel a ha r h1

/-- C9 on four priced samples with the savings 1/2, 3/4, 1/4 and 7/8: the entry of `c`,
with the saving 1/4, is the one left out, and 1/4 is at most the saving of each of the
three returned entries. -/
theorem saving_top_witness :
    GetTop3HighestSavingInstance insertionSorter savingPrices (.vector savingVector) =
      .ok [["d", "z2"], ["b", "z1"], ["a", "z1"]] ∧
    (sortedSavings insertionSorter savingPrices savingVector).drop 3 =
      [⟨"c", "z2", 1 / 4⟩] ∧
    ∀ a ∈ (sortedSavings insertionSorter savingPrices savingVector).take 3,
      (1 / 4 : Rat) ≤ a.SavingRatio := by
  have hdrop : (sortedSavings insertionSorter savingPrices savingVector).drop 3 =
      [⟨"c", "z2", 1 / 4⟩] := by rw [eval_saving_sorted]; rfl
  refine ⟨eval_saving_ranked, hdrop, ?_⟩
  intro a ha
  exact (saving_top insertionSorter savingPrices (.vector savingVector) _
    eval_saving_ranked).2.2.2.1 a ha ⟨"c", "z2", 1 / 4⟩
    (by
      show _ ∈ (sortedSavings insertionSorter savingPrices savingVector).drop 3
      rw [hdrop]
      exact List.mem_singleton.mpr rfl)

/-! ## C10 -/

/-- C10: the highest saving ranking fails with "no data found" exactly when the query
returns an empty vector, with the different error "no valid instance found" exactly when
the vector is non-empty and every sample is skipped, and succeeds when the vector is
non-empty with at least one eligible sample. -/
theorem saving_errors (sorter : SliceSorter) (priceData : RegionalInstancePrice)
    (result : QueryResult) :
    (GetTop3HighestSavingInstance sorter priceData result = .error .noDataFound ↔
      result = .vector []) ∧
    (GetTop3HighestSavingInstance sorter priceData result = .error .noValidInstance ↔
      ∃ vector, result = .vector vector ∧ vector ≠ [] ∧
        ∀ sample ∈ vector, eligibleSample priceData sample = false) ∧
    Error.noDataFound ≠ Error.noValidInstance ∧
    Error.noDataFound.message ≠ Error.noValidInstance.message ∧
    (∀ vector, result = .vector vector → vector ≠ [] →
      (∃ sample ∈ vector, eligibleSample priceData sample = true) →
      ∃ out, GetTop3HighestSavingInstance sorter priceData result = .ok out) := by
  refine ⟨?_, ?_, by decide, by decide, ?_⟩
  · cases result with
    | failed cause => simp [GetTop3HighestSavingInstance]
    | notVector => simp [GetTop3HighestSavingInstance]
    | vector v =>
      rw [saving_vector]
      by_cases hv : v = []
      · simp [hv]
      · rw [if_neg hv]
        by_cases hr : savingResults priceData v = []
        · simp [hr, hv]
        · simp [hr, hv]
  · cases result with
    | failed cause => simp [GetTop3HighestSavingInstance]
    | notVector => simp [GetTop3HighestSavingInstance]
    | vector v =>
      rw [saving_vector]
      by_cases hv : v = []
      · simp [hv]
      · rw [if_neg hv]
        by_cases hr : savingResults priceData v = []
        · simp only [hr, if_true, true_iff]
          refine ⟨v, rfl, hv, ?_⟩
          intro sample hmem
          cases he : eligibleSample priceData sample with
          | false => rfl
          | true => exact absurd hr (savingResults_ne_nil priceData v ⟨sample, hmem, he⟩)
        · rw [if_neg hr]
          constructor
          · intro h; cases h
          · rintro ⟨v', hv', _, hall⟩
            cases hv'
            exact absurd (savingResults_eq_nil priceData v hall) hr
  · intro vector hres hne hex
    subst hres
    rw [saving_vector, if_neg hne, if_neg (savingResults_ne_nil priceData vector hex)]
    exact ⟨_, rfl⟩

/-- C10 on concrete inputs: an empty vector gives "no data found", a vector whose two
samples are both skipped gives "no valid instance found". -/
theorem saving_errors_witness :
    GetTop3HighestSavingInstance insertionSorter scenarioPrices (.vector []) =
      .error .noDataFound ∧
    GetTop3HighestSavingInstance insertionSorter scenarioPrices (.vector scenarioSkipped) =
      .error .noValidInstance := by
  refine ⟨(saving_errors insertionSorter scenarioPrices (.vector [])).1.mpr rfl,
    (saving_errors insertionSorter scenarioPrices (.vector scenarioSkipped)).2.1.mpr
      ⟨scenarioSkipped, rfl, by simp [scenarioSkipped], ?_⟩⟩
  intro sample hmem
  simp only [scenarioSkipped, List.mem_cons, List.mem_singleton, List.not_mem_nil,
    or_false] at hmem
  rcases hmem with rfl | rfl <;>
    simp [eligibleSample, scenarioPrices, GoMap.get?, Sample.instanceType, Metric.get,
      List.lookup]

/-! ## Independence of the sorting algorithm when the sort keys are distinct -/

/-- Two orderings of the same elements by a key without repetition are equal. -/
theorem sorted_perm_unique {α : Type} (key : α → Rat) (l₁ l₂ : List α) (hp : l₁.Perm l₂)
    (h1 : l₁.Pairwise (fun a b => key a ≤ key b))
    (h2 : l₂.Pairwise (fun a b => key a ≤ key b)) (hnd : (l₂.map key).Nodup) : l₁ = l₂ := by
  have hnd1 : (l₁.map key).Nodup := (List.Perm.nodup_iff (hp.map key)).mpr hnd
  have strict : ∀ l : List α, l.Pairwise (fun a b => key a ≤ key b) → (l.map key).Nodup →
      l.Pairwise (fun a b => key a < key b) := by
    intro l hle hn
    have hne : l.Pairwise (fun a b => key a ≠ key b) := List.pairwise_map.mp hn
    exact (hle.and hne).imp (fun h => lt_of_le_of_ne h.1 h.2)
  haveI : IsAntisymm α (fun a b => key a < key b) :=
    ⟨fun a b hab hba => absurd hab (lt_asymm hba)⟩
  exact List.eq_of_perm_of_sorted hp (strict l₁ h1 hnd1) (strict l₂ h2 hnd)

/-- Any two implementations of `sort.Slice` agree on a slice whose sort keys are
pairwise distinct. -/
theorem run_eq_of_distinct_keys {α : Type} (key : α → Rat) (less : α → α → Bool)
    (hless : ∀ a b, less a b = decide (key a < key b)) (s₁ s₂ : SliceSorter) (xs : List α)
    (hnd : (xs.map key).Nodup) : s₁.run less xs = s₂.run less xs := by
  have hsorted : ∀ s : SliceSorter, (s.run less xs).Pairwise (fun a b => key a ≤ key b) := by
    intro s
    refine (s.sorted less (strictWeak_of_key key less hless) xs).imp ?_
    intro a b hab
    rw [hless] at hab
    simpa using hab
  refine sorted_perm_unique key _ _ ((s₁.perm less xs).trans (s₂.perm less xs).symm)
    (hsorted s₁) (hsorted s₂) ?_
  exact (List.Perm.nodup_iff ((s₂.perm less xs).map key)).mpr hnd

/-- The zone scenario of the specification gives the stated lists whatever algorithm
`sort.Slice` runs. -/
theorem zone_scenario_any_sorter (sorter : SliceSorter) :
    GetTop3CheapestAndMostExpensiveInstanceTypes sorter (.vector scenarioVector) =
      .ok (["c5.large", "m5.large", "m5.xlarge"], ["m5.xlarge", "m5.large", "c5.large"]) := by
  have h := run_eq_of_distinct_keys (fun s : Sample => s.Value) valueLess (fun _ _ => rfl)
    sorter insertionSorter scenarioVector (by norm_num [scenarioVector])
  rw [← eval_zone_scenario]
  simp only [GetTop3CheapestAndMostExpensiveInstanceTypes, h]

/-- The volatility scenario of the specification gives `[r:a]` whatever algorithm
`sort.Slice` runs and in whatever order the maps are visited. -/
theorem volatility_scenario_any_order (sorter : SliceSorter) (rangeMax rangeRatio : MapRange) :
    GetTop3InstanceTypes sorter rangeMax rangeRatio "r"
      (.vector scenarioMax) (.vector scenarioMin) = .ok ["r:a"] := by
  have hp := sortedRatios_perm sorter rangeMax rangeRatio "r" scenarioMax scenarioMin
  have hval : ((vectorMap "r" scenarioMax).filterMap
      (ratioEntry (vectorMap "r" scenarioMin))).map (fun e => kv.mk e.1 e.2) = [⟨"r:a", 5⟩] := by
    decide!
  rw [hval] at hp
  simp only [GetTop3InstanceTypes, take_topN, List.perm_singleton.mp hp]
  rfl

/-- The saving scenario gives the same two pairs whatever algorithm `sort.Slice` runs. -/
theorem saving_scenario_any_sorter (sorter : SliceSorter) :
    GetTop3HighestSavingInstance sorter scenarioPrices (.vector scenarioVector) =
      .ok [["m5.xlarge", "use2-az1"], ["m5.large", "use2-az1"]] := by
  have h := run_eq_of_distinct_keys (fun r : SavingResult => -r.SavingRatio) savingGreater
    (fun a b => by simp [savingGreater]) sorter insertionSorter
    (savingResults scenarioPrices scenarioVector) (by decide!)
  rw [← eval_saving_scenario]
  simp only [GetTop3HighestSavingInstance, h]

/-! ## C11 -/

/-- The zone ranking on a vector, by the emptiness test of the source. -/
theorem zone_vector (sorter : SliceSorter) (vector : List Sample) :
    GetTop3CheapestAndMostExpensiveInstanceTypes sorter (.vector vector) =
      if vector = [] then .error .noDataFound
      else .ok (((sorter.run valueLess vector).take 3).map Sample.instanceType,
        ((sorter.run valueLess vector).reverse.take 3).map Sample.instanceType) := by
  simp only [GetTop3CheapestAndMostExpensiveInstanceTypes, List.length_eq_zero]

/-- C11: the zone ranking returns an error, and no lists, when the query fails, when
its result is not a vector and when the vector is empty; it succeeds on every non-empty
vector, so it fails exactly when the query outcome is not a non-empty vector. -/
theorem zone_errors (sorter : SliceSorter) (result : QueryResult) :
    (∀ cause, result = .failed cause →
      GetTop3CheapestAndMostExpensiveInstanceTypes sorter result =
        .error (.queryFailed cause)) ∧
    (result = .notVector →
      GetTop3CheapestAndMostExpensiveInstanceTypes sorter result = .error .resultNotVector) ∧
    (result = .vector [] →
      GetTop3CheapestAndMostExpensiveInstanceTypes sorter result = .error .noDataFound) ∧
    (∀ vector, result = .vector vector → vector ≠ [] →
      ∃ cheapest expensive,
        GetTop3CheapestAndMostExpensiveInstanceTypes sorter result =
          .ok (cheapest, expensive)) ∧
    ((∃ e, GetTop3CheapestAndMostExpensiveInstanceTypes sorter result = .error e) ↔
      ¬ ∃ vector, vector ≠ [] ∧ result = .vector vector) := by
  refine ⟨?_, ?_, ?_, ?_, ?_⟩
  · rintro cause rfl; rfl
  · rintro rfl; rfl
  · rintro rfl; rfl
  · rintro vector rfl hne
    rw [zone_vector, if_neg hne]
    exact ⟨_, _, rfl⟩
  · cases result with
    | failed cause =>
      simp [GetTop3CheapestAndMostExpensiveInstanceTypes]
    | notVector =>
      simp [GetTop3CheapestAndMostExpensiveInstanceTypes]
    | vector v =>
      rw [zone_vector]
      by_cases hv : v = []
      · simp [hv]
      · simp [hv]

/-- C11 on concrete inputs: the empty vector is an error, the scenario vector is not. -/
theorem zone_errors_witness :
    GetTop3CheapestAndMostExpensiveInstanceTypes insertionSorter (.vector []) =
      .error .noDataFound ∧
    ∃ cheapest expensive,
      GetTop3CheapestAndMostExpensiveInstanceTypes insertionSorter (.vector scenarioVector) =
        .ok (cheapest, expensive) :=
  ⟨(zone_errors insertionSorter (.vector [])).2.2.1 rfl,
    (zone_errors insertionSorter (.vector scenarioVector)).2.2.2.1 scenarioVector rfl
      (by simp [scenarioVector])⟩

/-! ## C12 -/

theorem vectorMap_nil (region : String) : vectorMap region [] = [] := rfl

theorem eligibleKey_nil (key : String) : eligibleKey [] key = false := rfl

/-- Without eligible keys the sorted slice `ratios` is empty. -/
theorem sortedRatios_eq_nil (sorter : SliceSorter) (rangeMax rangeRatio : MapRange)
    (region : String) (maxVector minVector : List Sample)
    (h : eligibleKeys (vectorMap region maxVector) (vectorMap region minVector) = ∅) :
    sortedRatios sorter rangeMax rangeRatio region maxVector minVector = [] := by
  apply List.eq_nil_of_length_eq_zero
  rw [sortedRatios_length, h, Finset.card_empty]

/-- C12, the claim as stated fails: a max query that evaluates to something else than a
vector makes the volatility ranking return an error although neither query failed. -/
theorem volatility_error_without_failure :
    ¬ ∀ maxResult minResult : QueryResult,
      (∃ e, GetTop3InstanceTypes insertionSorter storedOrder storedOrder "r"
        maxResult minResult = .error e) →
      (∃ cause, maxResult = .failed cause) ∨ (∃ cause, minResult = .failed cause) := by
  intro h
  rcases h .notVector (.vector []) ⟨.maxNotVector, rfl⟩ with ⟨c, hc⟩ | ⟨c, hc⟩ <;> cases hc

/-- C12 amended: the volatility ranking returns an error exactly when one of the two
queries fails or returns something else than a vector; when both return vectors and no
key is eligible, in particular when one of the vectors is empty, it returns the empty
list and no error. -/
theorem volatility_errors (sorter : SliceSorter) (rangeMax rangeRatio : MapRange)
    (region : String) (maxResult minResult : QueryResult) :
    ((∃ e, GetTop3InstanceTypes sorter rangeMax rangeRatio region maxResult minResult =
        .error e) ↔
      ((∃ cause, maxResult = .failed cause) ∨ (∃ cause, minResult = .failed cause) ∨
        maxResult = .notVector ∨ minResult = .notVector)) ∧
    (∀ maxVector minVector, maxResult = .vector maxVector → minResult = .vector minVector →
      eligibleKeys (vectorMap region maxVector) (vectorMap region minVector) = ∅ →
      GetTop3InstanceTypes sorter rangeMax rangeRatio region maxResult minResult = .ok []) ∧
    (∀ maxVector minVector, maxResult = .vector maxVector → minResult = .vector minVector →
      maxVector = [] ∨ minVector = [] →
      GetTop3InstanceTypes sorter rangeMax rangeRatio region maxResult minResult = .ok []) := by
  have hempty : ∀ maxVector minVector,
      eligibleKeys (vectorMap region maxVector) (vectorMap region minVector) = ∅ →
      GetTop3InstanceTypes sorter rangeMax rangeRatio region (.vector maxVector)
        (.vector minVector) = .ok [] := by
    intro maxVector minVector h
    rw [volatility_vectors, sortedRatios_eq_nil sorter rangeMax rangeRatio region _ _ h]
    rfl
  refine ⟨?_, ?_, ?_⟩
  · cases maxResult <;> cases minResult <;> simp [GetTop3InstanceTypes]
  · rintro maxVector minVector rfl rfl h
    exact hempty maxVector minVector h
  · rintro maxVector minVector rfl rfl h
    apply hempty
    rcases h with rfl | rfl
    · simp [eligibleKeys, vectorMap_nil, GoMap.keys]
    · simp [eligibleKeys, vectorMap_nil, eligibleKey_nil]

/-- C12 amended, on concrete inputs: an empty min vector gives the empty list and no
error. -/
theorem volatility_errors_witness :
    GetTop3InstanceTypes insertionSorter storedOrder storedOrder "r"
      (.vector scenarioMax) (.vector []) = .ok [] :=
  (volatility_errors insertionSorter storedOrder storedOrder "r"
    (.vector scenarioMax) (.vector [])).2.2 scenarioMax [] rfl rfl (Or.inr rfl)

/-! ## C15 -/

theorem eval_seven_sorted :
    insertionSorter.run valueLess sevenVector =
      [⟨[("instance_type", "u3")], 1⟩, ⟨[("instance_type", "u5")], 2⟩,
       ⟨[("instance_type", "u1")], 3⟩, ⟨[("instance_type", "u0")], 5⟩,
       ⟨[("instance_type", "u4")], 7⟩, ⟨[("instance_type", "u6")], 8⟩,
       ⟨[("instance_type", "u2")], 9⟩] := by
  decide!

/-- C15: for a non-empty vector the cheapest list is the instance types of the first
three samples of the sorted vector and the most expensive list those of its last three;
together they hold at most 6 distinct instance types, and with at least 6 samples every
sample selected for the cheapest list has a value at most the value of every sample
selected for the most expensive list. -/
theorem zone_disjoint_ends (sorter : SliceSorter) (vector : List Sample) (h : vector ≠ []) :
    GetTop3CheapestAndMostExpensiveInstanceTypes sorter (.vector vector) =
      .ok (((sorter.run valueLess vector).take 3).map Sample.instanceType,
        ((sorter.run valueLess vector).reverse.take 3).map Sample.instanceType) ∧
    (∀ s ∈ (sorter.run valueLess vector).take 3, s ∈ vector) ∧
    (∀ s ∈ (sorter.run valueLess vector).reverse.take 3, s ∈ vector) ∧
    (((sorter.run valueLess vector).take 3).map Sample.instanceType ++
      ((sorter.run valueLess vector).reverse.take 3).map Sample.instanceType).toFinset.card
        ≤ 6 ∧
    (6 ≤ vector.length →
      ∀ a ∈ (sorter.run valueLess vector).take 3,
        ∀ b ∈ (sorter.run valueLess vector).reverse.take 3, a.Value ≤ b.Value) := by
  have hl := length_run sorter valueLess vector
  have hmem : ∀ s, s ∈ sorter.run valueLess vector → s ∈ vector :=
    fun s hs => (sorter.perm valueLess vector).mem_iff.mp hs
  refine ⟨?_, ?_, ?_, ?_, ?_⟩
  · rw [zone_vector, if_neg h]
  · exact fun s hs => hmem s (List.mem_of_mem_take hs)
  · exact fun s hs => hmem s (List.mem_reverse.mp (List.mem_of_mem_take hs))
  · refine le_trans (List.toFinset_card_le _) ?_
    simp only [List.length_append, List.length_map, List.length_take, List.length_reverse]
    omega
  · intro h6 a ha b hb
    rw [reverse_take_three, List.mem_reverse, hl] at hb
    have hb' : b ∈ (sorter.run valueLess vector).drop 3 := by
      have hsplit : vector.length - min 3 vector.length = 3 + (vector.length - 6) := by omega
      rw [hsplit, ← List.drop_drop] at hb
      exact List.mem_of_mem_drop hb
    exact take_drop_rel _ _ 3 (sorted_by_value sorter vector) a ha b hb'

/-- C15 on seven samples with the prices 5, 3, 9, 1, 7, 2, 8: the cheapest list is
`[u3, u5, u1]` (prices 1, 2, 3), the most expensive list is `[u2, u6, u4]` (prices 9,
8, 7), six distinct instance types, and each of 1, 2, 3 is at most each of 9, 8, 7. -/
theorem zone_disjoint_ends_witness :
    sevenVector ≠ [] ∧ 6 ≤ sevenVector.length ∧
    GetTop3CheapestAndMostExpensiveInstanceTypes insertionSorter (.vector sevenVector) =
      .ok (["u3", "u5", "u1"], ["u2", "u6", "u4"]) ∧
    ((insertionSorter.run valueLess sevenVector).take 3).map (fun s => s.Value) = [1, 2, 3] ∧
    ((insertionSorter.run valueLess sevenVector).reverse.take 3).map (fun s => s.Value) =
      [9, 8, 7] ∧
    (["u3", "u5", "u1"] ++ ["u2", "u6", "u4"]).toFinset.card = 6 ∧
    ∀ a ∈ (insertionSorter.run valueLess sevenVector).take 3,
      ∀ b ∈ (insertionSorter.run valueLess sevenVector).reverse.take 3, a.Value ≤ b.Value := by
  have hne : sevenVector ≠ [] := by decide
  have h6 : 6 ≤ sevenVector.length := by decide
  have h := zone_disjoint_ends insertionSorter sevenVector hne
  refine ⟨hne, h6, ?_, ?_, ?_, by decide, h.2.2.2.2 h6⟩
  · rw [h.1, eval_seven_sorted]
    rfl
  · rw [eval_seven_sorted]
    rfl
  · rw [eval_seven_sorted]
    rfl

/-! ## C16 -/

theorem get?_eq_none_iff {ν : Type} (m : GoMap ν) (k : String) :
    m.get? k = none ↔ k ∉ m.keys := by
  induction m with
  | nil => simp [GoMap.get?, GoMap.keys]
  | cons e m ih =>
    obtain ⟨k', v'⟩ := e
    simp only [GoMap.get?, GoMap.keys, List.lookup, List.map_cons, List.mem_cons, not_or] at ih ⊢
    by_cases hk : k = k'
    · subst hk; simp
    · have : (k == k') = false := by simpa using hk
      rw [this]
      simp only [hk, not_false_eq_true, true_and]
      exact ih

/-- C16: `GetOnDemandPrice` returns the on-demand price of the entry stored under
the instance type, with no error, when the instance type is a key of the price table,
and the error "instance type ... not exist" exactly when it is not a key. -/
theorem onDemandPrice_spec (priceData : RegionalInstancePrice) (instanceType : String) :
    (instanceType ∈ priceData.InstanceTypePrices.keys →
      ∃ data, priceData.InstanceTypePrices.get? instanceType = some data ∧
        GetOnDemandPrice priceData instanceType = .ok data.OnDemandPricePerHour) ∧
    ((∃ e, GetOnDemandPrice priceData instanceType = .error e) ↔
      instanceType ∉ priceData.InstanceTypePrices.keys) ∧
    (GetOnDemandPrice priceData instanceType = .error (.notExist instanceType) ↔
      instanceType ∉ priceData.InstanceTypePrices.keys) := by
  have hkey := get?_eq_none_iff priceData.InstanceTypePrices instanceType
  unfold GetOnDemandPrice
  cases hget : priceData.InstanceTypePrices.get? instanceType with
  | none =>
    have hn := hkey.mp hget
    simp [hn]
  | some data =>
    have hmem : instanceType ∈ priceData.InstanceTypePrices.keys := by
      by_contra hc
      rw [hkey.mpr hc] at hget
      cases hget
    simp [hmem]

/-- C16 on the scenario table: `m5.large` is priced 0.096 and `c5.large` is not found. -/
theorem onDemandPrice_spec_witness :
    GetOnDemandPrice scenarioPrices "m5.large" = .ok 0.096 ∧
    GetOnDemandPrice scenarioPrices "c5.large" = .error (.notExist "c5.large") := by
  refine ⟨?_, (onDemandPrice_spec scenarioPrices "c5.large").2.2.mpr
    (by simp [scenarioPrices, GoMap.keys])⟩
  obtain ⟨data, hget, hprice⟩ := (onDemandPrice_spec scenarioPrices "m5.large").1
    (by simp [scenarioPrices, GoMap.keys])
  rw [hprice]
  simp [scenarioPrices, GoMap.get?, List.lookup] at hget
  rw [← hget]

/-! ## C17 -/

/-- C17: with `attempts ≤ 0` the loop body never runs: `retry` returns `nil`, `f` is
not invoked, nothing sleeps and the closure keeps its state. -/
theorem retry_nonpositive {σ ε : Type} (attempts : Int) (sleep : Int) (f : σ → Option ε × σ)
    (s : σ) (h : attempts ≤ 0) :
    (retry attempts sleep f s).err = none ∧
    (retry attempts sleep f s).trace = [] ∧
    invocations (retry attempts sleep f s).trace = 0 ∧
    sleeps (retry attempts sleep f s).trace = 0 ∧
    (retry attempts sleep f s).state = s := by
  have h0 : attempts.toNat = 0 := by omega
  simp [retry, h0, retryLoop, invocations, sleeps]

/-- C17 at `attempts = 0` and `attempts = -5`, on an operation that would fail. -/
theorem retry_nonpositive_witness :
    ((retry 0 10 failAlways 0).err = none ∧ (retry 0 10 failAlways 0).trace = []) ∧
    ((retry (-5) 10 failAlways 0).err = none ∧ (retry (-5) 10 failAlways 0).trace = []) :=
  ⟨⟨(retry_nonpositive 0 10 failAlways 0 (by decide)).1,
      (retry_nonpositive 0 10 failAlways 0 (by decide)).2.1⟩,
    ⟨(retry_nonpositive (-5) 10 failAlways 0 (by decide)).1,
      (retry_nonpositive (-5) 10 failAlways 0 (by decide)).2.1⟩⟩

/-! ## C18 -/

/-- The events of a run: failures, each followed by one sleep, then possibly one
successful invocation, after which nothing happens. -/
theorem retryLoop_trace {σ ε : Type} (sleep : Int) (f : σ → Option ε × σ) :
    ∀ (n : Nat) (err : Option ε) (s : σ) (trace : List (RetryEvent ε)),
      ∃ (errs : List ε) (last : List (RetryEvent ε)),
        (last = [] ∨ last = [.invoke none]) ∧
        (retryLoop sleep f n err s trace).trace = trace ++ failureEvents sleep errs ++ last := by
  intro n
  induction n with
  | zero =>
    intro err s trace
    exact ⟨[], [], Or.inl rfl, by simp [retryLoop, failureEvents]⟩
  | succ n ih =>
    intro err s trace
    rw [retryLoop]
    rcases hfs : f s with ⟨r, s'⟩
    cases r with
    | none => exact ⟨[], [.invoke none], Or.inr rfl, by simp [failureEvents]⟩
    | some e =>
      obtain ⟨errs, last, hlast, htrace⟩ :=
        ih (some e) s' (trace ++ [.invoke (some e), .sleep sleep])
      exact ⟨e :: errs, last, hlast, by simp [htrace, failureEvents]⟩

/-- C18: `retry` sleeps once after every failed invocation, the last one included: when
all `attempts ≥ 1` invocations fail it sleeps `attempts` times, when the `k`-th
invocation is the first success it sleeps `k - 1` times, and in every run the events
are failures each followed by one sleep, then at most one success with nothing after. -/
theorem retry_sleeps {σ ε : Type} (attempts : Int) (sleep : Int) (f : σ → Option ε × σ)
    (s : σ) :
    (1 ≤ attempts → (∀ i : Nat, 1 ≤ i → (i : Int) ≤ attempts → outcome f s i ≠ none) →
      sleeps (retry attempts sleep f s).trace = attempts.toNat ∧
      (retry attempts sleep f s).trace.getLast? = some (.sleep sleep)) ∧
    (∀ k : Nat, 1 ≤ k → (k : Int) ≤ attempts →
      (∀ i, 1 ≤ i → i < k → outcome f s i ≠ none) → outcome f s k = none →
      sleeps (retry attempts sleep f s).trace = k - 1) ∧
    (∃ (errs : List ε) (last : List (RetryEvent ε)),
      (last = [] ∨ last = [.invoke none]) ∧
      (retry attempts sleep f s).trace = failureEvents sleep errs ++ last) := by
  refine ⟨?_, ?_, ?_⟩
  · intro h1 hfail
    have hn : 1 ≤ attempts.toNat := by omega
    obtain ⟨_, _, _, d, e⟩ := retryLoop_exhaust sleep f attempts.toNat none s [] hn
      (fun i hi hia => hfail i hi (by omega))
    exact ⟨by rw [retry, d]; simp [sleeps], e⟩
  · intro k hk1 hk hfail hok
    obtain ⟨_, _, _, d, _⟩ := retryLoop_success sleep f k attempts.toNat none s [] hk1
      (by omega) hfail hok
    rw [retry, d]; simp [sleeps]
  · obtain ⟨errs, last, hlast, htrace⟩ := retryLoop_trace sleep f attempts.toNat none s []
    exact ⟨errs, last, hlast, by rw [retry, htrace, List.nil_append]⟩

/-- C18 on concrete runs with `attempts = 3`: three failures give 3 sleeps, two
failures followed by a success give 2 sleeps. -/
theorem retry_sleeps_witness :
    sleeps (retry 3 10 failAlways 0).trace = 3 ∧
    sleeps (retry 3 10 failTwice 0).trace = 2 :=
  ⟨((retry_sleeps 3 10 failAlways 0).1 (by decide)
      (by intro i _ _; simp [outcome, failAlways])).1,
    (retry_sleeps 3 10 failTwice 0).2.1 3 (by decide) (by decide)
      (by
        intro i h1 h3
        have : i = 1 ∨ i = 2 := by omega
        rcases this with rfl | rfl <;> simp [outcome, stateAfter, failTwice])
      (by simp [outcome, stateAfter, failTwice])⟩

/-! ## C19 -/

/-- C19: for a non-empty vector of at most 3 samples the most expensive list is the
reverse of the cheapest list, and both hold the instance type of every sample. -/
theorem zone_small_reverse (sorter : SliceSorter) (vector : List Sample) (h : vector ≠ [])
    (h3 : vector.length ≤ 3) :
    ∃ cheapest expensive,
      GetTop3CheapestAndMostExpensiveInstanceTypes sorter (.vector vector) =
        .ok (cheapest, expensive) ∧
      expensive = cheapest.reverse ∧
      cheapest.Perm (vector.map Sample.instanceType) ∧
      expensive.Perm (vector.map Sample.instanceType) := by
  have hl := length_run sorter valueLess vector
  have ht : (sorter.run valueLess vector).take 3 = sorter.run valueLess vector :=
    List.take_of_length_le (by omega)
  have hr : (sorter.run valueLess vector).reverse.take 3 =
      (sorter.run valueLess vector).reverse :=
    List.take_of_length_le (by rw [List.length_reverse]; omega)
  have hp : ((sorter.run valueLess vector).map Sample.instanceType).Perm
      (vector.map Sample.instanceType) := (sorter.perm valueLess vector).map _
  refine ⟨(sorter.run valueLess vector).map Sample.instanceType,
    ((sorter.run valueLess vector).map Sample.instanceType).reverse, ?_, rfl, hp,
    (List.reverse_perm _).trans hp⟩
  rw [zone_vector, if_neg h, ht, hr, List.map_reverse]

/-- C19 on the scenario vector (3 samples). -/
theorem zone_small_reverse_witness :
    scenarioVector ≠ [] ∧ scenarioVector.length ≤ 3 ∧
    ∃ cheapest expensive,
      GetTop3CheapestAndMostExpensiveInstanceTypes insertionSorter (.vector scenarioVector) =
        .ok (cheapest, expensive) ∧
      expensive = cheapest.reverse ∧
      cheapest.Perm (scenarioVector.map Sample.instanceType) ∧
      expensive.Perm (scenarioVector.map Sample.instanceType) :=
  ⟨by simp [scenarioVector], by simp [scenarioVector],
    zone_small_reverse insertionSorter scenarioVector (by simp [scenarioVector])
      (by simp [scenarioVector])⟩

/-! ## C20 -/

theorem mem_keys_set {ν : Type} (m : GoMap ν) (k : String) (v : ν) (x : String) :
    x ∈ (m.set k v).keys ↔ x = k ∨ x ∈ m.keys := by
  simp only [GoMap.set, GoMap.keys, List.map_cons, List.mem_cons, List.mem_map,
    List.mem_filter]
  constructor
  · rintro (h | ⟨e, ⟨he, _⟩, rfl⟩)
    · exact Or.inl h
    · exact Or.inr ⟨e, he, rfl⟩
  · rintro (h | ⟨e, he, rfl⟩)
    · exact Or.inl h
    · by_cases hk : e.1 = k
      · exact Or.inl hk
      · exact Or.inr ⟨e, ⟨he, by simpa using hk⟩, rfl⟩

theorem mem_keys_foldl (region : String) (vector : List Sample) (x : String) :
    ∀ acc : GoMap Rat,
      x ∈ (vector.foldl (fun m sample =>
        m.set (regionKey region sample.instanceType) sample.Value) acc).keys ↔
      x ∈ acc.keys ∨ ∃ s ∈ vector, x = regionKey region s.instanceType := by
  induction vector with
  | nil => intro acc; simp
  | cons s vector ih =>
    intro acc
    rw [List.foldl_cons, ih, mem_keys_set]
    simp only [List.mem_cons, exists_eq_or_imp]
    tauto

/-- The keys of `maxMap` and `minMap` are the keys built from the samples. -/
theorem mem_keys_vectorMap (region : String) (vector : List Sample) (x : String) :
    x ∈ (vectorMap region vector).keys ↔ ∃ s ∈ vector, x = regionKey region s.instanceType := by
  rw [vectorMap, mem_keys_foldl]
  simp [GoMap.keys]

/-- The last sample of an instance type decides the value stored under its key. -/
theorem vectorMap_last (region : String) (vector : List Sample) (s : Sample) :
    (vectorMap region (vector ++ [s])).get? (regionKey region s.instanceType) =
      some s.Value := by
  simp [vectorMap, List.foldl_append, GoMap.set, GoMap.get?, List.lookup]

theorem mem_keys_of_get? {ν : Type} (m : GoMap ν) (k : String) (v : ν)
    (h : m.get? k = some v) : k ∈ m.keys :=
  List.mem_map.mpr ⟨(k, v), mem_of_lookup m k v h, rfl⟩

/-- C20: the keys returned by the volatility ranking are pairwise distinct and each is
`region:instanceType` for a sample of the max vector and for a sample of the min vector,
however often an instance type occurs in a vector; the value stored under a key is the
one of the last sample of that instance type. -/
theorem volatility_keys_distinct (sorter : SliceSorter) (rangeMax rangeRatio : MapRange)
    (region : String) (maxResult minResult : QueryResult) (top3 : List String)
    (h : GetTop3InstanceTypes sorter rangeMax rangeRatio region maxResult minResult = .ok top3) :
    top3.Nodup ∧
    (∀ key ∈ top3,
      (∃ s ∈ maxResult.samples, key = region ++ ":" ++ s.instanceType) ∧
      (∃ s ∈ minResult.samples, key = region ++ ":" ++ s.instanceType)) ∧
    (∀ (vector : List Sample) (s : Sample),
      (vectorMap region (vector ++ [s])).get? (region ++ ":" ++ s.instanceType) =
        some s.Value) := by
  obtain ⟨_, _, hout⟩ := volatility_ok sorter rangeMax rangeRatio region _ _ _ h
  refine ⟨?_, ?_, vectorMap_last region⟩
  · rw [hout]
    exact (sortedRatios_keys_nodup sorter rangeMax rangeRatio region _ _).sublist
      ((List.take_sublist 3 _).map kv.Key)
  · intro key hkey
    rw [hout] at hkey
    obtain ⟨x, hx, rfl⟩ := List.mem_map.mp hkey
    obtain ⟨maxVal, minVal, hmax, hmin, _, _⟩ :=
      (mem_sortedRatios sorter rangeMax rangeRatio region _ _ x).mp (List.mem_of_mem_take hx)
    exact ⟨(mem_keys_vectorMap region _ _).mp (mem_keys_of_get? _ _ _ hmax),
      (mem_keys_vectorMap region _ _).mp (mem_keys_of_get? _ _ _ hmin)⟩

theorem eval_repeated :
    GetTop3InstanceTypes insertionSorter storedOrder storedOrder "r"
      (.vector repeatedMax) (.vector repeatedMin) = .ok ["r:a"] := by
  simp [GetTop3InstanceTypes, sortedRatios, vectorMap, ratioMapOf, storedOrder, insertionSorter,
    insertionSort, GoMap.set, GoMap.get?, regionKey, Sample.instanceType, Metric.get,
    List.lookup, repeatedMax, repeatedMin]

/-- C20 on a max vector holding the instance type `a` twice (3, then 10): the key `r:a`
is returned once and the max map holds 10 for it. -/
theorem volatility_keys_distinct_witness :
    GetTop3InstanceTypes insertionSorter storedOrder storedOrder "r"
      (.vector repeatedMax) (.vector repeatedMin) = .ok ["r:a"] ∧
    ["r:a"].Nodup ∧
    (vectorMap "r" repeatedMax).get? "r:a" = some 10 := by
  have h := volatility_keys_distinct insertionSorter storedOrder storedOrder "r"
    (.vector repeatedMax) (.vector repeatedMin) ["r:a"] eval_repeated
  refine ⟨eval_repeated, h.1, ?_⟩
  have h2 := h.2.2 [⟨[("instance_type", "a")], 3⟩] ⟨[("instance_type", "a")], 10⟩
  simpa [repeatedMax, Sample.instanceType, Metric.get, List.lookup] using h2


/-! ## Evaluation of the Go sort -/

theorem eval_tie_positions :
    sortSlicePositions (lessAt valueLess tieVector) tieVector.length =
      [9, 1, 2, 3, 4, 5, 7, 8, 0, 10, 11, 12, 6] := by
  decide

theorem eval_tie_sort :
    goSorter.run valueLess tieVector =
      [⟨[("instance_type", "t9")], 1⟩, ⟨[("instance_type", "t1")], 1⟩,
       ⟨[("instance_type", "t2")], 1⟩, ⟨[("instance_type", "t3")], 1⟩,
       ⟨[("instance_type", "t4")], 1⟩, ⟨[("instance_type", "t5")], 1⟩,
       ⟨[("instance_type", "t7")], 1⟩, ⟨[("instance_type", "t8")], 1⟩,
       ⟨[("instance_type", "t0")], 1⟩, ⟨[("instance_type", "t10")], 1⟩,
       ⟨[("instance_type", "t11")], 1⟩, ⟨[("instance_type", "t12")], 1⟩,
       ⟨[("instance_type", "t6")], 2⟩] := by
  decide

/-! ## The insertion sort of the Go sort, on at most 12 elements -/

theorem dataSwap_cons_succ (h : Nat) (t : List Nat) (i j : Nat) :
    dataSwap (h :: t) (i + 1) (j + 1) = h :: dataSwap t i j := by
  simp [dataSwap]

theorem dataLess_cons_succ (cmp : Nat → Nat → Bool) (h : Nat) (t : List Nat) (i j : Nat) :
    dataLess cmp (h :: t) (i + 1) (j + 1) = dataLess cmp t i j := by
  simp [dataLess]

theorem dataSwap_adjacent (l : List Nat) (y x : Nat) (post : List Nat) :
    dataSwap (l ++ y :: x :: post) (l.length + 1) l.length = l ++ x :: y :: post := by
  induction l with
  | nil => simp [dataSwap]
  | cons h t ih => simpa [dataSwap_cons_succ] using ih

theorem dataLess_adjacent (cmp : Nat → Nat → Bool) (l : List Nat) (y x : Nat)
    (post : List Nat) :
    dataLess cmp (l ++ y :: x :: post) (l.length + 1) l.length = cmp x y := by
  induction l with
  | nil => simp [dataLess]
  | cons h t ih => simpa [dataLess_cons_succ] using ih

theorem length_insertLast (cmp : Nat → Nat → Bool) (x : Nat) (rp : List Nat) :
    (insertLast cmp x rp).length = rp.length + 1 := by
  induction rp with
  | nil => rfl
  | cons y rp ih =>
    simp only [insertLast]
    split <;> simp [ih]

/-- The inner loop of the insertion sort moves the element at position `i` into the
sorted prefix. -/
theorem insertionSort_inner_eq (cmp : Nat → Nat → Bool) (x : Nat) :
    ∀ (rp post : List Nat),
      insertionSort_inner cmp 0 rp.length (rp.reverse ++ x :: post) =
        (insertLast cmp x rp).reverse ++ post := by
  intro rp
  induction rp with
  | nil => intro post; rfl
  | cons y rp ih =>
    intro post
    have hdata : (y :: rp).reverse ++ x :: post = rp.reverse ++ y :: x :: post := by simp
    have hlen : (y :: rp).length = rp.reverse.length + 1 := by simp
    rw [hdata, hlen, insertionSort_inner, dataLess_adjacent]
    cases hc : cmp x y with
    | false => simp [insertLast, hc]
    | true =>
      simp only [Nat.zero_lt_succ, decide_True, Bool.and_self, if_true, dataSwap_adjacent]
      rw [List.length_reverse, ih]
      simp [insertLast, hc]

/-- The outer loop of the insertion sort inserts the remaining elements one by one. -/
theorem insertionSort_outer_eq (cmp : Nat → Nat → Bool) :
    ∀ (fuel : Nat) (rest rp : List Nat), rest.length ≤ fuel →
      insertionSort_outer cmp 0 (rp.length + rest.length) fuel rp.length (rp.reverse ++ rest) =
        (rest.foldl (fun rp x => insertLast cmp x rp) rp).reverse := by
  intro fuel
  induction fuel with
  | zero =>
    intro rest rp h
    have : rest = [] := List.eq_nil_of_length_eq_zero (by omega)
    subst this
    simp [insertionSort_outer]
  | succ fuel ih =>
    intro rest rp h
    cases rest with
    | nil => simp [insertionSort_outer]
    | cons x rest =>
      have hlt : rp.length < rp.length + (x :: rest).length := by simp
      rw [insertionSort_outer, if_pos hlt, insertionSort_inner_eq, List.foldl_cons]
      have hl := length_insertLast cmp x rp
      have hb : rp.length + (x :: rest).length = (insertLast cmp x rp).length + rest.length := by
        simp [hl]; omega
      rw [hb, ← hl]
      exact ih rest (insertLast cmp x rp) (by simpa using h)

/-- On at most 12 elements the Go sort is the insertion of the positions 0, 1, ..
one after the other. -/
theorem sortSlicePositions_small (cmp : Nat → Nat → Bool) (n : Nat) (h : n ≤ 12) :
    sortSlicePositions cmp n =
      ((List.range n).foldl (fun rp x => insertLast cmp x rp) []).reverse := by
  have hsort : sortSlicePositions cmp n = insertionSort_func cmp (List.range n) 0 n := by
    simp [sortSlicePositions, pdqsort_func, h]
  rw [hsort, insertionSort_func]
  cases n with
  | zero => rfl
  | succ m =>
    have hr : List.range (m + 1) = [0].reverse ++ (List.range m).map Nat.succ := by
      rw [List.range_succ_eq_map]; rfl
    have := insertionSort_outer_eq cmp (1 + m) ((List.range m).map Nat.succ) [0]
      (by simp)
    simp only [List.length_singleton, List.length_map, List.length_range] at this
    rw [hr]
    have hm : m + 1 - 0 = m + 1 := by omega
    have h1 : 1 + m = m + 1 := by omega
    rw [hm, ← h1]
    simpa [insertLast, List.foldl_cons] using this

theorem posBefore_trans (key : Nat → Rat) (p q r : Nat) (h1 : posBefore key p q)
    (h2 : posBefore key q r) : posBefore key p r := by
  rcases h1 with h1 | ⟨h1, h1'⟩ <;> rcases h2 with h2 | ⟨h2, h2'⟩
  · exact Or.inl (lt_trans h1 h2)
  · exact Or.inl (h2 ▸ h1)
  · exact Or.inl (h1 ▸ h2)
  · exact Or.inr ⟨h1.trans h2, lt_trans h1' h2'⟩

theorem posBefore_asymm (key : Nat → Rat) (p q : Nat) (h1 : posBefore key p q)
    (h2 : posBefore key q p) : False := by
  rcases h1 with h1 | ⟨h1, h1'⟩ <;> rcases h2 with h2 | ⟨h2, h2'⟩
  · exact lt_asymm h1 h2
  · rw [h2] at h1; exact lt_irrefl _ h1
  · rw [h1] at h2; exact lt_irrefl _ h2
  · exact Nat.lt_asymm h1' h2'

theorem mem_insertLast (cmp : Nat → Nat → Bool) (x w : Nat) (rp : List Nat) :
    w ∈ insertLast cmp x rp ↔ w = x ∨ w ∈ rp := by
  induction rp with
  | nil => simp [insertLast]
  | cons y rp ih =>
    simp only [insertLast]
    split
    · simp only [List.mem_cons, ih]; tauto
    · simp only [List.mem_cons]

theorem perm_insertLast (cmp : Nat → Nat → Bool) (x : Nat) (rp : List Nat) :
    (insertLast cmp x rp).Perm (x :: rp) := by
  induction rp with
  | nil => exact List.Perm.refl _
  | cons y rp ih =>
    simp only [insertLast]
    split
    · exact (ih.cons y).trans (List.Perm.swap x y rp)
    · exact List.Perm.refl _

/-- Inserting a position that is behind all the sorted ones keeps them in the order of
a stable sort. -/
theorem insertLast_sorted (key : Nat → Rat) (cmp : Nat → Nat → Bool) (n x : Nat)
    (hcmp : ∀ p q, p < n → q < n → cmp p q = decide (key p < key q)) (hx : x < n) :
    ∀ rp : List Nat, (∀ y ∈ rp, y < n) → (∀ y ∈ rp, y < x) →
      rp.Pairwise (fun a b => posBefore key b a) →
      (insertLast cmp x rp).Pairwise (fun a b => posBefore key b a) := by
  intro rp
  induction rp with
  | nil => intro _ _ _; simp [insertLast]
  | cons y rp ih =>
    intro hn hlt hs
    have hy : y < n := hn y (List.mem_cons_self _ _)
    have hyx : y < x := hlt y (List.mem_cons_self _ _)
    rw [List.pairwise_cons] at hs
    simp only [insertLast, hcmp x y hx hy]
    by_cases hk : key x < key y
    · simp only [hk, decide_True, if_true, List.pairwise_cons]
      refine ⟨?_, ih (fun z hz => hn z (List.mem_cons_of_mem _ hz))
        (fun z hz => hlt z (List.mem_cons_of_mem _ hz)) hs.2⟩
      intro w hw
      rcases (mem_insertLast cmp x w rp).mp hw with rfl | hw
      · exact Or.inl hk
      · exact hs.1 w hw
    · simp only [hk, decide_False, Bool.false_eq_true, if_false, List.pairwise_cons]
      have hyx' : posBefore key y x := by
        rcases lt_or_eq_of_le (not_lt.mp hk) with h | h
        · exact Or.inl h
        · exact Or.inr ⟨h, hyx⟩
      refine ⟨?_, hs⟩
      intro w hw
      rcases List.mem_cons.mp hw with rfl | hw
      · exact hyx'
      · exact posBefore_trans key w y x (hs.1 w hw) hyx'

/-- Inserting increasing positions one by one gives the order of a stable sort. -/
theorem foldl_insertLast_sorted (key : Nat → Rat) (cmp : Nat → Nat → Bool) (n : Nat)
    (hcmp : ∀ p q, p < n → q < n → cmp p q = decide (key p < key q)) :
    ∀ (l rp : List Nat), l.Pairwise (fun a b => a < b) → (∀ x ∈ l, x < n) →
      (∀ y ∈ rp, y < n) → (∀ y ∈ rp, ∀ x ∈ l, y < x) →
      rp.Pairwise (fun a b => posBefore key b a) →
      (l.foldl (fun rp x => insertLast cmp x rp) rp).Pairwise (fun a b => posBefore key b a) ∧
      (l.foldl (fun rp x => insertLast cmp x rp) rp).Perm (l ++ rp) := by
  intro l
  induction l with
  | nil => intro rp _ _ _ _ hs; exact ⟨hs, List.Perm.refl _⟩
  | cons x l ih =>
    intro rp hl hln hrn hlt hs
    rw [List.pairwise_cons] at hl
    have hx : x < n := hln x (List.mem_cons_self _ _)
    have hs' := insertLast_sorted key cmp n x hcmp hx rp hrn
      (fun y hy => hlt y hy x (List.mem_cons_self _ _)) hs
    have hmem : ∀ y ∈ insertLast cmp x rp, y = x ∨ y ∈ rp :=
      fun y hy => (mem_insertLast cmp x y rp).mp hy
    obtain ⟨h1, h2⟩ := ih (insertLast cmp x rp) hl.2
      (fun z hz => hln z (List.mem_cons_of_mem _ hz))
      (fun y hy => by
        rcases hmem y hy with rfl | hy
        · exact hx
        · exact hrn y hy)
      (fun y hy z hz => by
        rcases hmem y hy with rfl | hy
        · exact hl.1 z hz
        · exact hlt y hy z (List.mem_cons_of_mem _ hz))
      hs'
    refine ⟨h1, ?_⟩
    rw [List.foldl_cons]
    refine h2.trans ?_
    refine (List.Perm.append_left l (perm_insertLast cmp x rp)).trans ?_
    exact (List.perm_middle).trans (List.Perm.refl _)

/-- On at most 12 elements the Go sort returns the positions in the order of a stable
sort. -/
theorem sortSlicePositions_stable (key : Nat → Rat) (cmp : Nat → Nat → Bool) (n : Nat)
    (h : n ≤ 12) (hcmp : ∀ p q, p < n → q < n → cmp p q = decide (key p < key q)) :
    (sortSlicePositions cmp n).Pairwise (posBefore key) ∧
    (sortSlicePositions cmp n).Perm (List.range n) := by
  obtain ⟨h1, h2⟩ := foldl_insertLast_sorted key cmp n hcmp (List.range n) []
    (List.pairwise_lt_range n) (fun x hx => List.mem_range.mp hx)
    (fun y hy => by cases hy) (fun y hy => by cases hy) List.Pairwise.nil
  rw [sortSlicePositions_small cmp n h]
  constructor
  · exact List.pairwise_reverse.mpr h1
  · rw [List.append_nil] at h2
    exact (List.reverse_perm _).trans h2

theorem lessAt_value (vector : List Sample) (p q : Nat) (hp : p < vector.length)
    (hq : q < vector.length) :
    lessAt valueLess vector p q = decide (valueAt vector p < valueAt vector q) := by
  simp [lessAt, valueAt, valueLess, List.getElem?_eq_getElem hp, List.getElem?_eq_getElem hq]

theorem valueAt_of_getElem? (vector : List Sample) (p : Nat) (s : Sample)
    (h : vector[p]? = some s) : valueAt vector p = s.Value := by
  simp [valueAt, h]

/-- On at most 12 samples the guard of `goSorter` holds: the result is the one of the
Go sort. -/
theorem goSorter_small (vector : List Sample) (h : vector.length ≤ 12) :
    goSorter.run valueLess vector = goSortSlice valueLess vector := by
  obtain ⟨hs, hp⟩ := sortSlicePositions_stable (valueAt vector) (lessAt valueLess vector)
    vector.length h (lessAt_value vector)
  have hsorted : (goSortSlice valueLess vector).Pairwise (fun a b => valueLess b a = false) := by
    rw [goSortSlice, List.pairwise_filterMap]
    refine hs.imp ?_
    intro p q hpq b hb b' hb'
    have hb1 := valueAt_of_getElem? vector p b hb
    have hb2 := valueAt_of_getElem? vector q b' hb'
    have hle : b.Value ≤ b'.Value := by
      rw [← hb1, ← hb2]
      rcases hpq with h1 | ⟨h1, _⟩
      · exact le_of_lt h1
      · exact le_of_eq h1
    simpa [valueLess] using hle
  show (if _ then _ else _) = _
  rw [if_pos ⟨hp, hsorted⟩]

/-- Two elements that follow each other in a list sit at two increasing positions. -/
theorem pair_positions {α : Type} (a b : α) :
    ∀ l : List α, [a, b].Sublist l →
      ∃ p q : Nat, p < q ∧ l[p]? = some a ∧ l[q]? = some b := by
  intro l
  induction l with
  | nil => intro h; cases h
  | cons x l ih =>
    intro h
    cases h with
    | cons _ h' =>
      obtain ⟨p, q, hpq, hp, hq⟩ := ih h'
      exact ⟨p + 1, q + 1, by omega, by simpa using hp, by simpa using hq⟩
    | cons₂ _ h' =>
      have hb : b ∈ l := List.singleton_sublist.mp h'
      obtain ⟨q, hq⟩ := List.mem_iff_getElem?.mp hb
      exact ⟨0, q + 1, by omega, by simp, by simpa using hq⟩

/-- In a list ordered by an asymmetric relation, two members that are related follow
each other. -/
theorem pair_sublist_of_pairwise {R : Nat → Nat → Prop}
    (hasymm : ∀ p q, R p q → R q p → False) (d : List Nat) (hd : d.Pairwise R) (p q : Nat)
    (hp : p ∈ d) (hq : q ∈ d) (hpq : R p q) : [p, q].Sublist d := by
  obtain ⟨s, t, rfl⟩ := List.append_of_mem hp
  have hne : q ≠ p := by
    rintro rfl
    exact hasymm _ _ hpq hpq
  rcases List.mem_append.mp hq with hqs | hqt
  · have := (List.pairwise_append.mp hd).2.2 q hqs p (List.mem_cons_self _ _)
    exact absurd this (fun h => hasymm _ _ hpq h)
  · rcases List.mem_cons.mp hqt with h | h
    · exact absurd h hne
    · exact List.sublist_append_of_sublist_right
        ((List.singleton_sublist.mpr h).cons_cons p)

theorem sorted_by_value_of_less (l : List Sample)
    (h : l.Pairwise (fun a b => valueLess b a = false)) :
    l.Pairwise (fun a b => a.Value ≤ b.Value) := by
  refine h.imp ?_
  intro a b hab
  simpa [valueLess] using hab

/-! ## C13 -/

theorem take_filterMap_total {α β : Type} (f : α → Option β) :
    ∀ (l : List α) (k : Nat), (∀ x ∈ l, (f x).isSome = true) →
      (l.filterMap f).take k = (l.take k).filterMap f := by
  intro l
  induction l with
  | nil => intro k _; simp
  | cons x l ih =>
    intro k hl
    cases k with
    | zero => simp
    | succ k =>
      have hx := hl x (List.mem_cons_self _ _)
      obtain ⟨y, hy⟩ := Option.isSome_iff_exists.mp hx
      rw [List.filterMap_cons, hy, List.take_succ_cons, List.take_succ_cons,
        List.filterMap_cons, hy, ih k (fun z hz => hl z (List.mem_cons_of_mem _ hz))]

/-- The zone ranking with the Go sort, on a non-empty vector of which every position
is sorted: the two lists in terms of the sorted positions. -/
theorem zone_by_positions (vector : List Sample) (hne : vector ≠ [])
    (hrun : goSorter.run valueLess vector = goSortSlice valueLess vector)
    (hp : (sortSlicePositions (lessAt valueLess vector) vector.length).Perm
      (List.range vector.length)) :
    GetTop3CheapestAndMostExpensiveInstanceTypes goSorter (.vector vector) =
      .ok (((sortSlicePositions (lessAt valueLess vector) vector.length).take 3).filterMap
          (fun p => (vector[p]?).map Sample.instanceType),
        ((sortSlicePositions (lessAt valueLess vector) vector.length).reverse.take 3).filterMap
          (fun p => (vector[p]?).map Sample.instanceType)) := by
  have hsome : ∀ p ∈ sortSlicePositions (lessAt valueLess vector) vector.length,
      (vector[p]?).isSome = true := by
    intro p hmem
    have hlt : p < vector.length := List.mem_range.mp (hp.mem_iff.mp hmem)
    rw [List.getElem?_eq_getElem hlt]
    rfl
  have hsome' : ∀ p ∈ (sortSlicePositions (lessAt valueLess vector) vector.length).reverse,
      (vector[p]?).isSome = true := fun p hmem => hsome p (List.mem_reverse.mp hmem)
  rw [zone_vector, if_neg hne, hrun, goSortSlice, ← List.filterMap_reverse,
    take_filterMap_total _ _ 3 hsome, take_filterMap_total _ _ 3 hsome',
    List.map_filterMap, List.map_filterMap]

/-- C13, the claim as stated fails: on thirteen samples at price 1, except `t6` at 2,
`sort.Slice` puts `t9` in front of `t0`, which has the same price and came first, and
the cheapest list starts with `t9`. -/
theorem zone_sort_not_stable :
    (¬ ∀ (vector : List Sample) (a b : Sample), a.Value = b.Value →
      [a, b].Sublist vector → [a, b].Sublist (goSorter.run valueLess vector)) ∧
    GetTop3CheapestAndMostExpensiveInstanceTypes goSorter (.vector tieVector) =
      .ok (["t9", "t1", "t2"], ["t6", "t12", "t11"]) ∧
    goSorter.run valueLess tieVector = goSortSlice valueLess tieVector := by
  refine ⟨?_, ?_, by decide⟩
  · intro h
    have h' := h tieVector ⟨[("instance_type", "t0")], 1⟩ ⟨[("instance_type", "t9")], 1⟩ rfl
      (by decide)
    rw [eval_tie_sort] at h'
    revert h'
    decide
  · rw [zone_vector, if_neg (by simp [tieVector]), eval_tie_sort]
    rfl

/-- C13 amended: on a non-empty vector of at most 12 samples `sort.Slice` runs its
insertion sort, which is stable: the positions of the samples come out ordered by value
and, among equal values, by position in the query; two samples of equal value keep their
relative order in the sorted vector; and the cheapest list is the instance types at the
first three of these positions, so that equal-priced instance types appear in it in the
order in which the query returned them. -/
theorem zone_sort_stable_small (vector : List Sample) (h : vector.length ≤ 12)
    (hne : vector ≠ []) :
    (sortSlicePositions (lessAt valueLess vector) vector.length).Perm
      (List.range vector.length) ∧
    (sortSlicePositions (lessAt valueLess vector) vector.length).Pairwise
      (posBefore (valueAt vector)) ∧
    goSorter.run valueLess vector =
      (sortSlicePositions (lessAt valueLess vector) vector.length).filterMap
        (fun p => vector[p]?) ∧
    (∀ a b : Sample, a.Value = b.Value → [a, b].Sublist vector →
      [a, b].Sublist (goSorter.run valueLess vector)) ∧
    GetTop3CheapestAndMostExpensiveInstanceTypes goSorter (.vector vector) =
      .ok (((sortSlicePositions (lessAt valueLess vector) vector.length).take 3).filterMap
          (fun p => (vector[p]?).map Sample.instanceType),
        ((sortSlicePositions (lessAt valueLess vector) vector.length).reverse.take 3).filterMap
          (fun p => (vector[p]?).map Sample.instanceType)) := by
  obtain ⟨hs, hp⟩ := sortSlicePositions_stable (valueAt vector) (lessAt valueLess vector)
    vector.length h (lessAt_value vector)
  have hrun := goSorter_small vector h
  refine ⟨hp, hs, hrun, ?_, zone_by_positions vector hne hrun hp⟩
  intro a b hab hsub
  obtain ⟨p, q, hpq, hpa, hqb⟩ := pair_positions a b vector hsub
  have hpn : p < vector.length := by
    by_contra hc
    rw [List.getElem?_eq_none (by omega)] at hpa
    cases hpa
  have hqn : q < vector.length := by
    by_contra hc
    rw [List.getElem?_eq_none (by omega)] at hqb
    cases hqb
  have hbefore : posBefore (valueAt vector) p q := by
    refine Or.inr ⟨?_, hpq⟩
    rw [valueAt_of_getElem? vector p a hpa, valueAt_of_getElem? vector q b hqb, hab]
  have hsubpos := pair_sublist_of_pairwise (posBefore_asymm (valueAt vector)) _ hs p q
    (hp.mem_iff.mpr (List.mem_range.mpr hpn)) (hp.mem_iff.mpr (List.mem_range.mpr hqn)) hbefore
  have hmap := hsubpos.filterMap (fun p => vector[p]?)
  rw [hrun, goSortSlice]
  simpa [List.filterMap_cons, hpa, hqb] using hmap

/-- C13 amended, on five samples `a`, `c`, `b`, `d`, `e` with the prices 2, 1, 2, 1, 1:
the sorted positions are 1, 3, 4, 0, 2 and the cheapest list is `[c, d, e]`, the three
instance types at price 1 in the order of the query. -/
theorem zone_sort_stable_small_witness :
    smallTieVector.length ≤ 12 ∧ smallTieVector ≠ [] ∧
    sortSlicePositions (lessAt valueLess smallTieVector) smallTieVector.length =
      [1, 3, 4, 0, 2] ∧
    GetTop3CheapestAndMostExpensiveInstanceTypes goSorter (.vector smallTieVector) =
      .ok (["c", "d", "e"], ["b", "a", "e"]) := by
  have hlen : smallTieVector.length ≤ 12 := by decide
  have hne : smallTieVector ≠ [] := by decide
  have hpos : sortSlicePositions (lessAt valueLess smallTieVector) smallTieVector.length =
      [1, 3, 4, 0, 2] := by decide
  refine ⟨hlen, hne, hpos, ?_⟩
  rw [(zone_sort_stable_small smallTieVector hlen hne).2.2.2.2, hpos]
  rfl

/-! ## Ties made by rounding -/

theorem eval_float_tie_ratioMap :
    ratioMapOf insertionOrder (vectorMap "r" floatTieMax) (vectorMap "r" floatTieMin) =
      [("r:k2", 3 / 2), ("r:k1", 3 / 2)] := by
  decide!

/-- Two keys whose exact ratios differ (the one of `k2` is the greater) have the same
`float64` ratio 1.5; the volatility ranking lists them in the order in which the ratio
map is visited, `k1` first or `k2` first. -/
theorem volatility_float_tie :
    GetTop3InstanceTypes goSorter insertionOrder insertionOrder "r"
      (.vector floatTieMax) (.vector floatTieMin) = .ok ["r:k1", "r:k2"] ∧
    GetTop3InstanceTypes goSorter insertionOrder rotatedOrder "r"
      (.vector floatTieMax) (.vector floatTieMin) = .ok ["r:k2", "r:k1"] := by
  have h1 : insertionOrder.order
      (ratioMapOf insertionOrder (vectorMap "r" floatTieMax) (vectorMap "r" floatTieMin)) =
      [("r:k1", 3 / 2), ("r:k2", 3 / 2)] := by
    rw [eval_float_tie_ratioMap]; rfl
  have h2 : rotatedOrder.order
      (ratioMapOf insertionOrder (vectorMap "r" floatTieMax) (vectorMap "r" floatTieMin)) =
      [("r:k2", 3 / 2), ("r:k1", 3 / 2)] := by
    rw [eval_float_tie_ratioMap]; rfl
  have hs1 : goSorter.run ratioGreater [⟨"r:k1", 3 / 2⟩, ⟨"r:k2", 3 / 2⟩] =
      [⟨"r:k1", 3 / 2⟩, ⟨"r:k2", 3 / 2⟩] := by decide!
  have hs2 : goSorter.run ratioGreater [⟨"r:k2", 3 / 2⟩, ⟨"r:k1", 3 / 2⟩] =
      [⟨"r:k2", 3 / 2⟩, ⟨"r:k1", 3 / 2⟩] := by decide!
  constructor
  · rw [volatility_vectors, sortedRatios]
    simp only [h1, List.map_cons, List.map_nil, hs1]
    rfl
  · rw [volatility_vectors, sortedRatios]
    simp only [h2, List.map_cons, List.map_nil, hs2]
    rfl

/-! ## C14 -/

theorem eval_tied_ratioMap :
    ratioMapOf insertionOrder (vectorMap "r" tiedMax) (vectorMap "r" tiedMin) =
      [("r:d", 2), ("r:c", 2), ("r:b", 2), ("r:a", 2)] := by
  decide!

theorem eval_tied_first :
    GetTop3InstanceTypes goSorter insertionOrder insertionOrder "r"
      (.vector tiedMax) (.vector tiedMin) = .ok ["r:a", "r:b", "r:c"] := by
  have hsort : goSorter.run ratioGreater [⟨"r:a", 2⟩, ⟨"r:b", 2⟩, ⟨"r:c", 2⟩, ⟨"r:d", 2⟩] =
      [⟨"r:a", 2⟩, ⟨"r:b", 2⟩, ⟨"r:c", 2⟩, ⟨"r:d", 2⟩] := by decide
  have hord : insertionOrder.order
      (ratioMapOf insertionOrder (vectorMap "r" tiedMax) (vectorMap "r" tiedMin)) =
      [("r:a", 2), ("r:b", 2), ("r:c", 2), ("r:d", 2)] := by
    rw [eval_tied_ratioMap]
    rfl
  rw [volatility_vectors, sortedRatios]
  simp only [hord, List.map_cons, List.map_nil, hsort]
  rfl

theorem eval_tied_second :
    GetTop3InstanceTypes goSorter insertionOrder rotatedOrder "r"
      (.vector tiedMax) (.vector tiedMin) = .ok ["r:b", "r:c", "r:d"] := by
  have hsort : goSorter.run ratioGreater [⟨"r:b", 2⟩, ⟨"r:c", 2⟩, ⟨"r:d", 2⟩, ⟨"r:a", 2⟩] =
      [⟨"r:b", 2⟩, ⟨"r:c", 2⟩, ⟨"r:d", 2⟩, ⟨"r:a", 2⟩] := by decide
  have hrot : rotatedOrder.order
      (ratioMapOf insertionOrder (vectorMap "r" tiedMax) (vectorMap "r" tiedMin)) =
      [("r:b", 2), ("r:c", 2), ("r:d", 2), ("r:a", 2)] := by
    rw [eval_tied_ratioMap]
    rfl
  rw [volatility_vectors, sortedRatios]
  simp only [hrot, List.map_cons, List.map_nil, hsort]
  rfl

/-- C14, the claim as stated fails: with four keys of equal ratio, two iteration orders
of `ratioMap` that the Go runtime can both take give two different results on the same
input. -/
theorem volatility_depends_on_map_order :
    GetTop3InstanceTypes goSorter insertionOrder insertionOrder "r"
      (.vector tiedMax) (.vector tiedMin) = .ok ["r:a", "r:b", "r:c"] ∧
    GetTop3InstanceTypes goSorter insertionOrder rotatedOrder "r"
      (.vector tiedMax) (.vector tiedMin) = .ok ["r:b", "r:c", "r:d"] ∧
    ¬ ∀ rangeRatio rangeRatio' : MapRange,
      GetTop3InstanceTypes goSorter insertionOrder rangeRatio "r"
        (.vector tiedMax) (.vector tiedMin) =
      GetTop3InstanceTypes goSorter insertionOrder rangeRatio' "r"
        (.vector tiedMax) (.vector tiedMin) := by
  refine ⟨eval_tied_first, eval_tied_second, ?_⟩
  intro h
  have h' := h insertionOrder rotatedOrder
  rw [eval_tied_first, eval_tied_second] at h'
  simp at h'

/-- C14 amended: when the metrics that are sorted, as the code computes them, are
pairwise distinct, the result of each ranking (a list or an error) is fixed by the
outcome of its queries: the volatility ranking does not depend on the two map iteration
orders nor on the sorting algorithm, and the zone and highest saving rankings do not
depend on the sorting algorithm. -/
theorem rankings_deterministic (sorter sorter' : SliceSorter)
    (rangeMax rangeMax' rangeRatio rangeRatio' : MapRange) (region : String)
    (priceData : RegionalInstancePrice)
    (maxResult minResult zoneResult regionResult : QueryResult) :
    ((((vectorMap region maxResult.samples).filterMap
        (ratioEntry (vectorMap region minResult.samples))).map Prod.snd).Nodup →
      GetTop3InstanceTypes sorter rangeMax rangeRatio region maxResult minResult =
      GetTop3InstanceTypes sorter' rangeMax' rangeRatio' region maxResult minResult) ∧
    ((zoneResult.samples.map (fun s => s.Value)).Nodup →
      GetTop3CheapestAndMostExpensiveInstanceTypes sorter zoneResult =
      GetTop3CheapestAndMostExpensiveInstanceTypes sorter' zoneResult) ∧
    (((savingResults priceData regionResult.samples).map (fun r => r.SavingRatio)).Nodup →
      GetTop3HighestSavingInstance sorter priceData regionResult =
      GetTop3HighestSavingInstance sorter' priceData regionResult) := by
  refine ⟨?_, ?_, ?_⟩
  · intro hnd
    rcases maxResult with c | _ | maxVector <;> rcases minResult with c' | _ | minVector <;>
      try rfl
    have hnd : (((vectorMap region maxVector).filterMap
        (ratioEntry (vectorMap region minVector))).map Prod.snd).Nodup := hnd
    have hp := sortedRatios_perm sorter rangeMax rangeRatio region maxVector minVector
    have hp' := sortedRatios_perm sorter' rangeMax' rangeRatio' region maxVector minVector
    have hs : (sortedRatios sorter rangeMax rangeRatio region maxVector minVector).Pairwise
        (fun a b => (fun x : kv => -x.Ratio) a ≤ (fun x : kv => -x.Ratio) b) :=
      (sortedRatios_sorted sorter rangeMax rangeRatio region maxVector minVector).imp
        (fun h => neg_le_neg h)
    have hs' : (sortedRatios sorter' rangeMax' rangeRatio' region maxVector minVector).Pairwise
        (fun a b => (fun x : kv => -x.Ratio) a ≤ (fun x : kv => -x.Ratio) b) :=
      (sortedRatios_sorted sorter' rangeMax' rangeRatio' region maxVector minVector).imp
        (fun h => neg_le_neg h)
    have hkeys : ((sortedRatios sorter' rangeMax' rangeRatio' region maxVector minVector).map
        (fun x : kv => -x.Ratio)).Nodup := by
      rw [List.Perm.nodup_iff (hp'.map _)]
      have := hnd.map neg_injective
      simpa [List.map_map, Function.comp_def] using this
    have heq := sorted_perm_unique (fun x : kv => -x.Ratio) _ _ (hp.trans hp'.symm) hs hs' hkeys
    rw [volatility_vectors, volatility_vectors, heq]
  · intro hnd
    rcases zoneResult with c | _ | zoneVector <;> try rfl
    have h := run_eq_of_distinct_keys (fun s : Sample => s.Value) valueLess (fun _ _ => rfl)
      sorter sorter' zoneVector hnd
    rw [zone_vector, zone_vector, h]
  · intro hnd
    rcases regionResult with c | _ | regionVector <;> try rfl
    have hnd : ((savingResults priceData regionVector).map (fun r => r.SavingRatio)).Nodup :=
      hnd
    have h := run_eq_of_distinct_keys (fun r : SavingResult => -r.SavingRatio) savingGreater
      (fun a b => by simp [savingGreater]) sorter sorter'
      (savingResults priceData regionVector) (by
        have := hnd.map neg_injective
        simpa [List.map_map, Function.comp_def] using this)
    rw [saving_vector, saving_vector, sortedSavings, sortedSavings, h]

/-- C14 amended, on inputs with distinct metrics: four eligible keys of ratios 5, 4, 3,
2, seven zone samples of distinct prices and four priced samples of distinct savings.
The Go sort, with the maps visited from the second entry on, returns what the insertion
sort returns with the maps visited as they are stored. -/
theorem rankings_deterministic_witness :
    GetTop3InstanceTypes goSorter rotatedOrder rotatedOrder "r"
      (.vector rankedMax) (.vector rankedMin) = .ok ["r:a", "r:c", "r:d"] ∧
    GetTop3CheapestAndMostExpensiveInstanceTypes goSorter (.vector sevenVector) =
      GetTop3CheapestAndMostExpensiveInstanceTypes insertionSorter (.vector sevenVector) ∧
    GetTop3HighestSavingInstance goSorter savingPrices (.vector savingVector) =
      .ok [["d", "z2"], ["b", "z1"], ["a", "z1"]] := by
  have h := rankings_deterministic goSorter insertionSorter rotatedOrder storedOrder
    rotatedOrder storedOrder "r" savingPrices (.vector rankedMax) (.vector rankedMin)
    (.vector sevenVector) (.vector savingVector)
  refine ⟨?_, h.2.1 (by decide!), ?_⟩
  · rw [h.1 (by decide!)]
    exact eval_ranked
  · rw [h.2.2 (by decide!)]
    exact eval_saving_ranked

end PromAnalysis
